import Mathlib

/-!
Package twoface: retry strategy, worker, pool and scaler.

A shallow embedding of the Go package `twoface` (`result.go`, `job.go`,
`retrier.go`, `worker.go`, `pool.go`, `scaler.go`) together with theorems about it.

Conventions of the embedding.

* Go `int` / `int64` values are `Int`; where 64-bit wrap-around can be observed
  (`period++`, the running sum of duration samples) the operation is wrapped with
  `wrap64`.
* A pointer field that may be `nil` is an `Option`.
* A Go function that may panic returns `Except String _`.
* A Go function that may fail to return takes a `fuel : Nat` bounding the number of
  recursive calls; running out of fuel is reported as "no result yet".
* Goroutines are state machines: one `step` function per goroutine, an event per
  observable action, `none` when the event is not enabled.
* `time.Now()` is an explicit argument (nanoseconds).
-/

namespace twoface

/-! ## result.go -/

/-- Go `Result[T, E]`: two pointer fields, `nil` modelled by `none`. -/
structure Result (T E : Type) where
  ok : Option T
  err : Option E
  deriving DecidableEq, Repr

/-- Go `Ok(value)`: `Result{ok: &value}`. -/
def Ok {T E : Type} (value : T) : Result T E :=
  { ok := some value, err := none }

/-- Go `Err(err)`: `Result{err: &err}`. -/
def Err {T E : Type} (err : E) : Result T E :=
  { ok := none, err := some err }

/-- Go `r.IsOk()`: `r.ok != nil`. -/
def Result.IsOk {T E : Type} (r : Result T E) : Bool :=
  r.ok.isSome

/-- Go `r.IsErr()`: `r.err != nil`. -/
def Result.IsErr {T E : Type} (r : Result T E) : Bool :=
  r.err.isSome

/-! ## job.go -/

/-- Go `error` values built by `fmt.Errorf`: identified with their message. -/
abbrev GoError : Type := String

/-- Go interface `Job`: one method `Do() Result[any, error]`.  A job may have state of
its own (type `σ`), so `Do` maps the state before the call to the outcome and the state
after it. -/
structure Job (σ α : Type) where
  Do : σ → Result α GoError × σ

/-- Go `NewJob(jobType)`: the identity conversion to the interface. -/
def NewJob {σ α : Type} (jobType : Job σ α) : Job σ α :=
  jobType

/-- The test double `DummyJob{result}` of `job_test.go`: `Do` returns the stored result. -/
def DummyJob {α : Type} (result : Result α GoError) : Job Unit α :=
  { Do := fun s => (result, s) }

/-! ## retrier.go -/

/-- Observable effects of a retry chain: the state of the wrapped job, how many times
`fn.Do()` has been called, and the arguments (in seconds) of the `time.Sleep` calls,
oldest first. -/
structure Effects (σ : Type) where
  state : σ
  executions : Nat
  sleeps : List Int

/-- The `float64` value of the constant `math.Phi`
(`0x1.9e3779b97f4a8p+0 = 910872158600853 / 2^49`). -/
def Phi : ℚ := 910872158600853 / 562949953421312

/-- The `float64` value of the constant expression `math.Phi-1`
(`0x1.3c6ef372fe950p-1 = 347922205179541 / 2^49`). -/
def PhiMinusOne : ℚ := 347922205179541 / 562949953421312

/-- The `float64` value of `math.Sqrt(5)`
(`0x1.1e3779b97f4a8p+1 = 629397181890197 / 2^48`). -/
def Sqrt5 : ℚ := 629397181890197 / 281474976710656

/-- Go `math.Round`: nearest integer, halves away from zero. -/
def Round (x : ℚ) : Int :=
  if 0 ≤ x then ⌊x + 1 / 2⌋ else -⌊-x + 1 / 2⌋

/-- The right-hand side of line 44 of `retrier.go`,
`int(math.Round((math.Pow(math.Phi, float64(n)) + math.Pow(math.Phi-1, float64(n))) / math.Sqrt(5)))`.

The three constants are the exact `float64` values; powers, sum and quotient are
evaluated exactly instead of being rounded to `float64` after each operation.  At
`n = 0` and `n = 1`, the only values the counter takes in a chain started by
`NewFibonacci`, `math.Pow` is exact (`Pow(x, 0) = 1`, `Pow(x, 1) = x`) and the quotient
is `0.894…` resp. `1.000…`, so the two roundings omitted here (relative error at most
`2^-53` each) cannot change the result of `math.Round`. -/
def nextIndex (n : Int) : Int :=
  Round ((Phi ^ n + PhiMinusOne ^ n) / Sqrt5)

/-- Go `Fibonacci`: the retry strategy with its two `int` fields. -/
structure Fibonacci where
  max : Int
  n : Int
  deriving DecidableEq, Repr

/-- Go `NewFibonacci(max)`: `Fibonacci{max: max, n: 0}` (through the identity
`NewRetrier`). -/
def NewFibonacci (max : Int) : Fibonacci :=
  { max := max, n := 0 }

/-- Go `(strategy Fibonacci) Do(fn)`.

`fuel` bounds the number of (recursive) calls of `Do`.  The first component is
`some result` when `Do` returned `result` within that many calls and `none` when the
chain is still running after `fuel` calls; the second component records the effects
performed so far. -/
def Fibonacci.Do {σ α : Type} :
    Nat → Fibonacci → Job σ α → Effects σ → Option (Result α GoError) × Effects σ
  | 0, _, _, eff => (none, eff)
  | fuel + 1, strategy, fn, eff =>
    if strategy.n > strategy.max then
      (some (Err "maximum retries reached"), eff)
    else
      let result := (fn.Do eff.state).1
      let eff1 : Effects σ :=
        { state := (fn.Do eff.state).2, executions := eff.executions + 1, sleeps := eff.sleeps }
      if result.IsOk then
        (some result, eff1)
      else
        let strategy1 : Fibonacci := { max := strategy.max, n := nextIndex strategy.n }
        let eff2 : Effects σ :=
          { state := eff1.state, executions := eff1.executions,
            sleeps := eff1.sleeps ++ [strategy1.n] }
        Fibonacci.Do fuel strategy1 fn eff2

/-- Go `RetriableJob`: the wrapped job (`ctx` is never read). -/
structure RetriableJob (σ α : Type) where
  fn : Job σ α

/-- Go `NewRetriableJob(ctx, fn)`. -/
def NewRetriableJob {σ α : Type} (fn : Job σ α) : RetriableJob σ α :=
  { fn := fn }

/-- Go `(job RetriableJob) Do()`: `NewRetrier(NewFibonacci(3)).Do(job.fn)`. -/
def RetriableJob.Do {σ α : Type} (fuel : Nat) (job : RetriableJob σ α) (eff : Effects σ) :
    Option (Result α GoError) × Effects σ :=
  (NewFibonacci 3).Do fuel job.fn eff

/-- A job every execution of which fails (`IsOk()` is false), whatever its state. -/
def AlwaysFails {σ α : Type} (fn : Job σ α) : Prop :=
  ∀ s : σ, (fn.Do s).1.IsOk = false

/-- The state of the world before a retry chain starts: job state `s`, nothing executed,
nothing slept. -/
def Effects.start {σ : Type} (s : σ) : Effects σ :=
  { state := s, executions := 0, sleeps := [] }

/-- The always-failing job of `job_test.go`: `DummyJob{Err(fmt.Errorf("retry"))}`. -/
def failingJob : Job Unit Unit :=
  DummyJob (Err "retry")

/-! ## worker.go -/

/-- Go `Worker`.  `lastUse` is a `time.Time` in nanoseconds; the channel and context
fields are represented by the events of `WorkerProc.step`. -/
structure Worker where
  ID : Int
  lastUse : Int
  lastDuration : Int
  drain : Bool
  deriving DecidableEq, Repr

/-- Go `NewWorker(ID, workerPool, ctx)`; `now` is the value of `time.Now()`.
`lastDuration` is not mentioned in the composite literal and so is zero. -/
def NewWorker (ID : Int) (now : Int) : Worker :=
  { ID := ID, lastUse := now, lastDuration := 0, drain := false }

/-- Go `(worker *Worker) Drain()`: `worker.drain = true`. -/
def Worker.Drain (worker : Worker) : Worker :=
  { worker with drain := true }

/-- Where the goroutine started by `Worker.Start` stands.

* `advertising`: at the top of the loop, at `worker.WorkerPool <- worker.JobChannel`;
* `waiting`: advertised, blocked in the `select`;
* `running`: inside `job.Do()`;
* `stopped`: the goroutine has returned. -/
inductive Phase where
  | advertising
  | waiting
  | running
  | stopped
  deriving DecidableEq, Repr

/-- What can happen to a worker goroutine.

* `advertised`: the send `worker.WorkerPool <- worker.JobChannel` completed;
* `delivered now`: the `select` received a job; `now` is the `time.Now()` stored in
  `lastUse`;
* `finished now isErr`: `job.Do()` returned at time `now`, with `result.IsErr() = isErr`;
* `cancelled`: the `select` took `<-worker.ctx.Done()`;
* `drain`: another goroutine called `worker.Drain()`. -/
inductive WorkerEvent where
  | advertised
  | delivered (now : Int)
  | finished (now : Int) (isErr : Bool)
  | cancelled
  | drain
  deriving DecidableEq, Repr

/-- A worker together with its goroutine: the `Worker` object, the phase of the
goroutine, the number of items whose `job.Do()` has returned, and the number of
"Job failed" lines printed. -/
structure WorkerProc where
  worker : Worker
  phase : Phase
  executed : Nat
  printed : Nat
  deriving DecidableEq, Repr

/-- Go `(worker *Worker) Start()`: spawns the goroutine, which begins at the top of
its loop. -/
def Worker.Start (worker : Worker) : WorkerProc :=
  { worker := worker, phase := Phase.advertising, executed := 0, printed := 0 }

/-- One step of the goroutine of `Worker.Start` (lines 34-52 of `worker.go`);
`none` when the event cannot happen in the current phase. -/
def WorkerProc.step (p : WorkerProc) : WorkerEvent → Option WorkerProc
  | WorkerEvent.drain => some { p with worker := p.worker.Drain }
  | WorkerEvent.advertised =>
    match p.phase with
    | Phase.advertising => some { p with phase := Phase.waiting }
    | _ => none
  | WorkerEvent.delivered now =>
    match p.phase with
    | Phase.waiting =>
      some { p with worker := { p.worker with lastUse := now }, phase := Phase.running }
    | _ => none
  | WorkerEvent.finished now isErr =>
    match p.phase with
    | Phase.running =>
      some
        { worker := { p.worker with lastDuration := now - p.worker.lastUse }
          phase := if p.worker.drain then Phase.stopped else Phase.advertising
          executed := p.executed + 1
          printed := if isErr then p.printed + 1 else p.printed }
    | _ => none
  | WorkerEvent.cancelled =>
    match p.phase with
    | Phase.waiting => some { p with phase := Phase.stopped }
    | _ => none

/-- Runs a sequence of events, oldest first; `none` as soon as one is not enabled. -/
def WorkerProc.run (p : WorkerProc) : List WorkerEvent → Option WorkerProc
  | [] => some p
  | e :: es => (p.step e).bind (fun q => q.run es)

/-! ## pool.go -/

/-- Go `Pool`: the capacity of the `workerPool` channel, the `workers` slice, the counter
of the `sync.WaitGroup`, and whether `cancel` has been called. -/
structure Pool where
  workerPoolCap : Int
  workers : List Worker
  wg : Int
  cancelled : Bool
  deriving DecidableEq, Repr

/-- Go `NewPool(ctx, numWorkers)`; the `i`-th worker is created at time `clock i`.
`make(chan chan Job, numWorkers)` panics for a negative size. -/
def NewPool (clock : Nat → Int) (numWorkers : Int) : Except String Pool :=
  if numWorkers < 0 then
    Except.error "makechan: size out of range"
  else
    Except.ok
      { workerPoolCap := numWorkers
        workers :=
          (List.range numWorkers.toNat).foldl
            (fun (workers : List Worker) (i : Nat) =>
              workers ++ [NewWorker (Int.ofNat i) (clock i)]) []
        wg := 0
        cancelled := false }

/-- Go `(pool *Pool) Size()`: `len(pool.workers)`. -/
def Pool.Size (pool : Pool) : Int :=
  pool.workers.length

/-- The first statement of Go `(pool *Pool) Submit(job)`: `pool.wg.Add(1)`.  The send
`pool.jobQueue <- job` that follows is the `queue` of `System`. -/
def Pool.Submit (pool : Pool) : Pool :=
  { pool with wg := pool.wg + 1 }

/-- The first statement of Go `(pool *Pool) Shutdown()`: `pool.cancel()`. -/
def Pool.cancel (pool : Pool) : Pool :=
  { pool with cancelled := true }

/-- Whether the `pool.wg.Wait()` of `Shutdown` can return: the counter is zero. -/
def Pool.waitReturns (pool : Pool) : Bool :=
  decide (pool.wg = 0)

/-- The pool with its goroutines.  `queue` counts the jobs that `Submit` has sent (or is
blocked sending) on `jobQueue` and that no worker has received yet; `accepted` counts
the calls of `Submit`, `completed` the returns of `job.Do()` inside workers. -/
structure System where
  pool : Pool
  procs : List WorkerProc
  queue : Nat
  accepted : Nat
  completed : Nat
  deriving DecidableEq, Repr

/-- What can happen in the system.

* `submit`: a caller runs `Submit`;
* `hand i now`: `dispatch` receives a job from `jobQueue` and the channel of worker `i`
  from `workerPool` and sends the job on it (lines 79-83 of `pool.go`);
* `worker i e`: worker `i` performs `e` on its own (`delivered` happens only through
  `hand`, `cancelled` only after `cancel`);
* `cancel`: `pool.cancel()`.

The capacity of `workerPool` and the order in which `dispatch` takes advertised channels
are not tracked: every waiting worker may be handed the next job, so every interleaving
of the program is a run of this machine. -/
inductive SysEvent where
  | submit
  | hand (i : Nat) (now : Int)
  | worker (i : Nat) (e : WorkerEvent)
  | cancel
  deriving DecidableEq, Repr

/-- Go `NewPool` seen with its goroutines: every worker has been started. -/
def NewSystem (clock : Nat → Int) (numWorkers : Int) : Except String System :=
  (NewPool clock numWorkers).map fun pool =>
    { pool := pool, procs := pool.workers.map Worker.Start,
      queue := 0, accepted := 0, completed := 0 }

/-- Worker `i` has moved to `q`: the goroutine state is replaced and, since
`pool.workers[i]` points to the same `Worker` object, so is the object seen through the
pool (the system has no scaler, so goroutine `i` is the one of `pool.workers[i]`). -/
def System.update (sys : System) (i : Nat) (q : WorkerProc) : System :=
  { sys with procs := sys.procs.set i q,
             pool := { sys.pool with workers := sys.pool.workers.set i q.worker } }

/-- One step of the system; `none` when the event is not enabled.  Only `submit` touches
the `WaitGroup` counter: the source has no `wg.Done()`. -/
def System.step (sys : System) : SysEvent → Option System
  | SysEvent.submit =>
    some { sys with pool := sys.pool.Submit, queue := sys.queue + 1,
                    accepted := sys.accepted + 1 }
  | SysEvent.hand i now =>
    if sys.queue = 0 then none
    else
      (sys.procs.get? i).bind fun p =>
        (p.step (WorkerEvent.delivered now)).map fun q =>
          { sys.update i q with queue := sys.queue - 1 }
  | SysEvent.worker i e =>
    (sys.procs.get? i).bind fun p =>
      match e with
      | WorkerEvent.delivered _ => none
      | WorkerEvent.cancelled =>
        if sys.pool.cancelled then (p.step e).map fun q => sys.update i q
        else none
      | WorkerEvent.finished _ _ =>
        (p.step e).map fun q => { sys.update i q with completed := sys.completed + 1 }
      | _ => (p.step e).map fun q => sys.update i q
  | SysEvent.cancel => some { sys with pool := sys.pool.cancel }

/-- Runs a sequence of events, oldest first. -/
def System.run (sys : System) : List SysEvent → Option System
  | [] => some sys
  | e :: es => (sys.step e).bind (fun next => next.run es)

/-! ## scaler.go -/

/-- Two's-complement wrap-around of a 64-bit signed integer. -/
def wrap64 (x : Int) : Int :=
  (x + 9223372036854775808) % 18446744073709551616 - 9223372036854775808

/-- Go `Scaler`.  `interval` is in milliseconds, `maxIdle` in nanoseconds; `pool` is the
pool the scaler points to. -/
structure Scaler where
  interval : Int
  rate : Int
  stats : Int
  period : Int
  level : Int
  samples : Int
  overload : Bool
  lower : Bool
  pool : Pool
  maxIdle : Int
  deriving DecidableEq, Repr

/-- Go `NewScaler(pool)`. -/
def NewScaler (pool : Pool) : Scaler :=
  { interval := 100, rate := 10, stats := 0, period := 0, level := 1, samples := 3,
    overload := false, lower := false, pool := pool, maxIdle := 1000000000 }

/-- The loop of lines 66-72 of `scaler.go`, started with `scaler.stats = 0` and
`count = 0`: the pair `(scaler.stats, count)` after the loop.  The sum is an `int64`. -/
def Scaler.sample (workers : List Worker) : Int × Int :=
  workers.foldl
    (fun (acc : Int × Int) (worker : Worker) =>
      if worker.lastDuration ≠ 0 then (wrap64 (acc.1 + worker.lastDuration), acc.2 + 1)
      else acc)
    (0, 0)

/-- Lines 81-86 of `scaler.go`: `(scaler.period, scaler.level)` after the trend
handling, given `scaler.period` as incremented on entry and the new trend `lower`. -/
def Scaler.trend (scaler : Scaler) (period : Int) (lower : Bool) : Int × Int :=
  if scaler.lower ≠ lower then
    (0, if scaler.level > 1 then scaler.level - 1 else scaler.level)
  else
    (period, scaler.level)

/-- Go `(scaler *Scaler) load()`.  The division of line 78 panics when `count` is zero. -/
def Scaler.load (scaler : Scaler) : Except String Scaler :=
  let period := wrap64 (scaler.period + 1)
  let prev := scaler.stats
  let sum := (Scaler.sample scaler.pool.workers).1
  let count := (Scaler.sample scaler.pool.workers).2
  if prev = 0 ∨ sum = 0 then
    Except.ok { scaler with period := period, stats := sum }
  else if count = 0 then
    Except.error "runtime error: integer divide by zero"
  else
    let stats := Int.tdiv sum count
    let lower := decide (stats > prev)
    let after := scaler.trend period lower
    if after.1 ≥ scaler.samples then
      Except.ok
        { scaler with
          stats := stats
          lower := lower
          period := 0
          level := if after.2 < 3 then after.2 + 1 else after.2
          overload := decide (stats > prev) }
    else
      Except.ok { scaler with stats := stats, lower := lower, period := after.1, level := after.2 }

/-- The worker of a pool after it has recorded the duration `d` of an item. -/
def sampled (ID : Int) (d : Int) : Worker :=
  { NewWorker ID 0 with lastDuration := d }


/-- A scaler in mid-run: previous statistic 7, two ticks counted in the rising direction,
over two workers with samples 10 and 20. -/
def risingScaler : Scaler :=
  { NewScaler { workerPoolCap := 2, workers := [sampled 0 10, sampled 1 20], wg := 0,
                cancelled := false } with
    stats := 7, period := 2, lower := true }

/-- Scaler states the program can be in: the state built by `NewScaler`, any state
obtained from one by a `load()` that returns, and any obtained by a change of the pool
(workers record durations, the worker collection grows or shrinks) between two calls. -/
inductive Scaler.Reachable : Scaler → Prop where
  | new (pool : Pool) : Scaler.Reachable (NewScaler pool)
  | load (scaler next : Scaler) :
      Scaler.Reachable scaler → scaler.load = Except.ok next → Scaler.Reachable next
  | pool (scaler : Scaler) (pool : Pool) :
      Scaler.Reachable scaler → Scaler.Reachable { scaler with pool := pool }

/-- The `pool.workers` slice while `Shrink` runs: the backing array and the length of
the slice.  `drain` writes into the backing array in place, and the `range` loop of
`Shrink` keeps reading the array at the indices of the slice it started with. -/
structure Slice where
  array : List Worker
  len : Nat
  deriving DecidableEq, Repr

/-- The elements of the slice: the first `len` cells of the backing array. -/
def Slice.live (workers : Slice) : List Worker :=
  workers.array.take workers.len

/-- The slice expression of Go `(scaler *Scaler) drain(worker, i)`,
`append(scaler.pool.workers[:i], scaler.pool.workers[i+1:]...)`.

`workers[:i]` needs `i ≤ cap`, `workers[i+1:]` needs `i+1 ≤ len`; the append fits the
capacity, so it moves cells `i+1 .. len-1` of the backing array down by one in place and
leaves the cells from `len-1` on as they were. -/
def Scaler.drain (workers : Slice) (i : Nat) : Except String Slice :=
  if workers.array.length < i then
    Except.error "runtime error: slice bounds out of range"
  else if workers.len < i + 1 then
    Except.error "runtime error: slice bounds out of range"
  else
    Except.ok
      { array :=
          workers.array.take i ++ (workers.array.drop (i + 1)).take (workers.len - (i + 1))
            ++ workers.array.drop (workers.len - 1)
        len := workers.len - 1 }

/-- The loop of lines 124-126 of `scaler.go`,
`for i := 0; i < scaler.rate; i++ { scaler.drain(scaler.pool.workers[i], i) }`, with
`todo` iterations left, at index `i`; `drained` collects the workers on which `Drain()`
has been called.  The index expression `scaler.pool.workers[i]` panics when `i` is not
below the current length. -/
def Scaler.shrinkOverload : Nat → Nat → Slice → List Worker →
    Except String (Slice × List Worker)
  | 0, _, workers, drained => Except.ok (workers, drained)
  | todo + 1, i, workers, drained =>
    if i < workers.len then
      match workers.array.get? i with
      | some worker =>
        match Scaler.drain workers i with
        | Except.ok next => Scaler.shrinkOverload todo (i + 1) next (drained ++ [worker.Drain])
        | Except.error e => Except.error e
      | none => Except.error "runtime error: index out of range"
    else
      Except.error "runtime error: index out of range"

/-- The loop of lines 130-134 of `scaler.go`,
`for idx, worker := range scaler.pool.workers { if time.Since(worker.lastUse) > scaler.maxIdle { scaler.drain(worker, idx) } }`,
with `todo` iterations left, at index `idx`.  The number of iterations is the length of
the slice when the loop starts; `worker` is read from the backing array, which `drain`
changes under the loop.  `clock idx` is the time at iteration `idx`. -/
def Scaler.shrinkIdle (maxIdle : Int) (clock : Nat → Int) : Nat → Nat → Slice → List Worker →
    Except String (Slice × List Worker)
  | 0, _, workers, drained => Except.ok (workers, drained)
  | todo + 1, idx, workers, drained =>
    match workers.array.get? idx with
    | some worker =>
      if clock idx - worker.lastUse > maxIdle then
        match Scaler.drain workers idx with
        | Except.ok next =>
          Scaler.shrinkIdle maxIdle clock todo (idx + 1) next (drained ++ [worker.Drain])
        | Except.error e => Except.error e
      else
        Scaler.shrinkIdle maxIdle clock todo (idx + 1) workers drained
    | none => Except.error "runtime error: index out of range"

/-- Go `(scaler *Scaler) Shrink()`.  Returns the scaler with the new `pool.workers` and
the workers on which `Drain()` was called (flag set), in call order. -/
def Scaler.Shrink (scaler : Scaler) (clock : Nat → Int) :
    Except String (Scaler × List Worker) :=
  if scaler.pool.workers.length = 0 then
    Except.ok (scaler, [])
  else
    let loop :=
      if scaler.overload then
        Scaler.shrinkOverload scaler.rate.toNat 0
          { array := scaler.pool.workers, len := scaler.pool.workers.length } []
      else
        Scaler.shrinkIdle scaler.maxIdle clock scaler.pool.workers.length 0
          { array := scaler.pool.workers, len := scaler.pool.workers.length } []
    match loop with
    | Except.ok (workers, drained) =>
      Except.ok ({ scaler with pool := { scaler.pool with workers := workers.live } }, drained)
    | Except.error e => Except.error e

/-- Go `(scaler *Scaler) Grow()`; the `i`-th new worker is created at time `clock i`.
The bound `scaler.rate*scaler.level` is an `int` product. -/
def Scaler.Grow (scaler : Scaler) (clock : Nat → Int) : Scaler :=
  if !scaler.overload then
    { scaler with
      pool :=
        { scaler.pool with
          workers :=
            (List.range (wrap64 (scaler.rate * scaler.level)).toNat).foldl
              (fun (workers : List Worker) (i : Nat) =>
                workers ++ [NewWorker (Int.ofNat workers.length) (clock i)])
              scaler.pool.workers } }
  else
    scaler

/-- Go `len(ch)` for a channel of capacity `cap` on which `sent` values have been sent
(blocked senders included) and not yet received: the number of values in the buffer. -/
def chanLen (cap sent : Nat) : Nat :=
  min sent cap

/-- The capacity of `pool.jobQueue`: it is made by `make(chan Job)`, without a buffer. -/
def Pool.jobQueueCap : Nat := 0

/-- The body of the `case <-ticker.C` of Go `(scaler *Scaler) Run()` (lines 49-54 of
`scaler.go`).  `sent` is the number of jobs sent on `jobQueue` and not yet received,
`born` the clock of `Grow`, `clock` the clock of `Shrink`. -/
def Scaler.tick (scaler : Scaler) (sent : Nat) (born clock : Nat → Int) :
    Except String (Scaler × List Worker) :=
  match scaler.load with
  | Except.error e => Except.error e
  | Except.ok loaded =>
    let grown :=
      if !loaded.overload && decide (chanLen Pool.jobQueueCap sent > 0) then loaded.Grow born
      else loaded
    if grown.overload then grown.Shrink clock else Except.ok (grown, [])

/-- Successive `load()` calls, the worker collection being `workers` at the call. -/
def Scaler.loads (scaler : Scaler) : List (List Worker) → Except String Scaler
  | [] => Except.ok scaler
  | workers :: rest =>
    match ({ scaler with pool := { scaler.pool with workers := workers } } : Scaler).load with
    | Except.ok next => next.loads rest
    | Except.error e => Except.error e

/-! ## result.go, continued -/

/-- Go `r.Unwrap()`: panics on an `Err` value with a message that ends with the
error formatted by `%v`; otherwise dereferences `r.ok`. -/
def Result.Unwrap {T E : Type} [ToString E] (r : Result T E) : Except String T :=
  match r.err with
  | some err => Except.error ("called `Unwrap` on an `Err` value: " ++ toString err)
  | none =>
    match r.ok with
    | some value => Except.ok value
    | none => Except.error "runtime error: invalid memory address or nil pointer dereference"

/-- Go `r.UnwrapErr()`: panics on an `Ok` value; otherwise dereferences `r.err`. -/
def Result.UnwrapErr {T E : Type} (r : Result T E) : Except String E :=
  if r.IsOk then
    Except.error "called `UnwrapErr` on an `Ok` value"
  else
    match r.err with
    | some err => Except.ok err
    | none => Except.error "runtime error: invalid memory address or nil pointer dereference"

/-- Go `r.Map(f)`. -/
def Result.Map {T E : Type} (r : Result T E) (f : T → T) : Result T E :=
  match r.ok with
  | some value => Ok (f value)
  | none => r

/-- Go `r.FlatMap(f)`. -/
def Result.FlatMap {T E : Type} (r : Result T E) (f : T → Result T E) : Result T E :=
  match r.ok with
  | some value => f value
  | none => r

/-- Go `r.AndThen(f)`. -/
def Result.AndThen {T E : Type} (r : Result T E) (f : T → Result T E) : Result T E :=
  match r.ok with
  | some value => f value
  | none => r

/-! ## option.go -/

/-- Go `Option[T]`: one pointer field, `nil` modelled by `none`. -/
protected structure Option (T : Type) where
  value : Option T
  deriving DecidableEq, Repr

/-- Go `Some(v)`: `Option[T]{value: &v}`. -/
def Some {T : Type} (v : T) : twoface.Option T :=
  { value := some v }

/-- Go `None[T]()`: `Option[T]{value: nil}`. -/
def None {T : Type} : twoface.Option T :=
  { value := none }

/-- Go `o.IsSome()`: `o.value != nil`. -/
def Option.IsSome {T : Type} (o : twoface.Option T) : Bool :=
  o.value.isSome

/-- Go `o.IsNone()`: `o.value == nil`. -/
def Option.IsNone {T : Type} (o : twoface.Option T) : Bool :=
  o.value.isNone

/-- Go `o.Unwrap()`: the pair `(value, error)`; a `nil` error is `none`, and the zero
value of `T` is `default`. -/
def Option.Unwrap {T : Type} [Inhabited T] (o : twoface.Option T) : T × Option GoError :=
  match o.value with
  | none => (default, some "called `Unwrap` on a `None` value")
  | some v => (v, none)

/-- Go `o.UnwrapOr(defaultValue)`. -/
def Option.UnwrapOr {T : Type} (o : twoface.Option T) (defaultValue : T) : T :=
  match o.value with
  | none => defaultValue
  | some v => v

/-! ## either.go -/

/-- Go `Either[L, R]`: two pointer fields. -/
structure Either (L R : Type) where
  left : Option L
  right : Option R
  deriving DecidableEq, Repr

/-- Go `Left(value)`: `Either{left: &value}`. -/
def Left {L R : Type} (value : L) : Either L R :=
  { left := some value, right := none }

/-- Go `Right(value)`: `Either{right: &value}`. -/
def Right {L R : Type} (value : R) : Either L R :=
  { left := none, right := some value }

/-- Go `e.IsLeft()`: `e.left != nil`. -/
def Either.IsLeft {L R : Type} (e : Either L R) : Bool :=
  e.left.isSome

/-- Go `e.IsRight()`: `e.right != nil`. -/
def Either.IsRight {L R : Type} (e : Either L R) : Bool :=
  e.right.isSome

/-- Go `e.UnwrapLeft()`: panics on a right value; otherwise dereferences `e.left`. -/
def Either.UnwrapLeft {L R : Type} (e : Either L R) : Except String L :=
  if e.IsRight then
    Except.error "called `UnwrapLeft` on a `Right` value"
  else
    match e.left with
    | some value => Except.ok value
    | none => Except.error "runtime error: invalid memory address or nil pointer dereference"

/-- Go `e.UnwrapRight()`: panics on a left value; otherwise dereferences `e.right`. -/
def Either.UnwrapRight {L R : Type} (e : Either L R) : Except String R :=
  if e.IsLeft then
    Except.error "called `UnwrapRight` on a `Left` value"
  else
    match e.right with
    | some value => Except.ok value
    | none => Except.error "runtime error: invalid memory address or nil pointer dereference"

/-- Whether every tick of the run is classified (not skipped) and finds a mean above the
statistic left by the tick before it; `scaler` is the state before the run and the lists
are the worker collections seen by the successive `load()` calls. -/
def Scaler.risingRun (scaler : Scaler) : List (List Worker) → Bool
  | [] => true
  | workers :: rest =>
    decide (scaler.stats ≠ 0) && decide ((Scaler.sample workers).1 ≠ 0) &&
      decide (Int.tdiv (Scaler.sample workers).1 (Scaler.sample workers).2 > scaler.stats) &&
      match ({ scaler with pool := { scaler.pool with workers := workers } } : Scaler).load with
      | Except.ok next => next.risingRun rest
      | Except.error _ => false

/-- A pool of `n` workers with ids `0 .. n-1`, all last used at time 0 and without a
duration sample. -/
def idlePool (n : Nat) : Pool :=
  { workerPoolCap := n, workers := (List.range n).map (fun i => NewWorker (Int.ofNat i) 0),
    wg := 0, cancelled := false }

/-- The worker collection of a pool of `n + 1` workers of which only worker 0 has been
used: it received its last job at time `t` and the job took `d`; the others are as
`NewWorker` made them at time 0. -/
def busyWorkers (n : Nat) (d t : Int) : List Worker :=
  { ID := 0, lastUse := t, lastDuration := d, drain := false } ::
    (List.range n).map (fun i => NewWorker (Int.ofNat (i + 1)) 0)

/-- A new scaler after its first `load()`, over one worker whose sample is 10. -/
def firstSample : Scaler :=
  { NewScaler { workerPoolCap := 1, workers := [sampled 0 10], wg := 0, cancelled := false } with
    period := 1, stats := 10 }

/-- The pool of `NewPool(ctx, 2)` after worker 1 has executed one job, received at
1.5 s and finished at 1.6 s (worker 0 has not been used since time 0). -/
def usedPool : Option Pool :=
  ((NewSystem (fun _ => 0) 2).toOption.bind fun sys =>
    sys.run
      [SysEvent.worker 1 WorkerEvent.advertised, SysEvent.submit,
        SysEvent.hand 1 1500000000,
        SysEvent.worker 1 (WorkerEvent.finished 1600000000 false)]).map
    fun sys => sys.pool

/-! ## future.go -/

/-- Go `Future[T]`: the stored result and error (`nil` is `none`) and whether the `done`
channel has been closed.  The mutex only orders accesses and has no state of its own
here. -/
structure Future (T : Type) where
  result : T
  err : Option GoError
  done : Bool
  deriving DecidableEq, Repr

/-- Go `NewFuture[T]()`: zero result, `nil` error, an open `done` channel. -/
def NewFuture {T : Type} [Inhabited T] : Future T :=
  { result := default, err := none, done := false }

/-- Go `(f *Future[T]) Result()`: `<-f.done` blocks until the channel is closed
(`none`: still blocked), then the stored pair is returned. -/
def Future.Result {T : Type} (f : Future T) : Option (T × Option GoError) :=
  if f.done then some (f.result, f.err) else none

/-- Go `Promise[T]`: the future it writes to (the one handed out by `NewPromise`) and
whether its `sync.Once` has fired. -/
structure Promise (T : Type) where
  future : Future T
  once : Bool
  deriving DecidableEq, Repr

/-- Go `NewPromise[T]()`: the promise; the future of the returned pair is its `future`
field. -/
def NewPromise {T : Type} [Inhabited T] : Promise T :=
  { future := NewFuture, once := false }

/-- Go `(p *Promise[T]) Set(result, err)`: the body runs under `p.once.Do`, so only on
the first call; it stores the pair and closes `done`. -/
def Promise.Set {T : Type} (p : Promise T) (result : T) (err : Option GoError) : Promise T :=
  if p.once then p
  else { future := { result := result, err := err, done := true }, once := true }

/-- Successive calls of `Set`, oldest first. -/
def Promise.Sets {T : Type} (p : Promise T) : List (T × Option GoError) → Promise T
  | [] => p
  | (result, err) :: rest => (p.Set result err).Sets rest

/-! ## Theorems: retry strategy -/

theorem nextIndex_zero : nextIndex 0 = 1 := by
  simp only [nextIndex, Round, Phi, PhiMinusOne, Sqrt5, zpow_zero]
  rw [if_pos (by norm_num), Int.floor_eq_iff]
  norm_num

theorem nextIndex_one : nextIndex 1 = 1 := by
  simp only [nextIndex, Round, Phi, PhiMinusOne, Sqrt5, zpow_one]
  rw [if_pos (by norm_num), Int.floor_eq_iff]
  norm_num

theorem Fibonacci.Do_zero {σ α : Type} (strategy : Fibonacci) (fn : Job σ α)
    (eff : Effects σ) : strategy.Do 0 fn eff = (none, eff) := rfl

theorem Fibonacci.Do_exhausted {σ α : Type} (fuel : Nat) (strategy : Fibonacci)
    (fn : Job σ α) (eff : Effects σ) (h : strategy.n > strategy.max) :
    strategy.Do (fuel + 1) fn eff = (some (Err "maximum retries reached"), eff) := by
  simp [Fibonacci.Do, h]

theorem Fibonacci.Do_ok {σ α : Type} (fuel : Nat) (strategy : Fibonacci)
    (fn : Job σ α) (eff : Effects σ) (h : strategy.n ≤ strategy.max)
    (hok : (fn.Do eff.state).1.IsOk = true) :
    strategy.Do (fuel + 1) fn eff =
      (some (fn.Do eff.state).1,
        { state := (fn.Do eff.state).2, executions := eff.executions + 1,
          sleeps := eff.sleeps }) := by
  simp [Fibonacci.Do, not_lt.mpr h, hok]

theorem Fibonacci.Do_retry {σ α : Type} (fuel : Nat) (strategy : Fibonacci)
    (fn : Job σ α) (eff : Effects σ) (h : strategy.n ≤ strategy.max)
    (hfail : (fn.Do eff.state).1.IsOk = false) :
    strategy.Do (fuel + 1) fn eff =
      Fibonacci.Do fuel { max := strategy.max, n := nextIndex strategy.n } fn
        { state := (fn.Do eff.state).2, executions := eff.executions + 1,
          sleeps := eff.sleeps ++ [nextIndex strategy.n] } := by
  simp [Fibonacci.Do, not_lt.mpr h, hfail]

/-- Once the counter is 1 and `max` is at least 1, an always-failing job is retried for
ever, one second apart: after `fuel` calls nothing has been returned, the job has been
executed `fuel` more times and `fuel` sleeps of one second have been added. -/
theorem Fibonacci.Do_stuck {σ α : Type} (fn : Job σ α) (hfail : AlwaysFails fn)
    (max : Int) (hmax : 1 ≤ max) (fuel : Nat) (eff : Effects σ) :
    (Fibonacci.Do fuel { max := max, n := 1 } fn eff).1 = none ∧
    (Fibonacci.Do fuel { max := max, n := 1 } fn eff).2.executions = eff.executions + fuel ∧
    (Fibonacci.Do fuel { max := max, n := 1 } fn eff).2.sleeps
      = eff.sleeps ++ List.replicate fuel 1 := by
  induction fuel generalizing eff with
  | zero => simp [Fibonacci.Do_zero]
  | succ k ih =>
    rw [Fibonacci.Do_retry k _ fn eff hmax (hfail _), nextIndex_one]
    obtain ⟨h1, h2, h3⟩ := ih
      { state := (fn.Do eff.state).2, executions := eff.executions + 1,
        sleeps := eff.sleeps ++ [1] }
    refine ⟨h1, ?_, ?_⟩
    · rw [h2]; simp only []; omega
    · rw [h3]; simp [List.replicate_succ]

/-- A chain started by `NewFibonacci max` with `max ≥ 1` on an always-failing job. -/
theorem Fibonacci.Do_diverges {σ α : Type} (fn : Job σ α) (hfail : AlwaysFails fn)
    (max : Int) (hmax : 1 ≤ max) (fuel : Nat) (eff : Effects σ) :
    ((NewFibonacci max).Do fuel fn eff).1 = none ∧
    ((NewFibonacci max).Do fuel fn eff).2.executions = eff.executions + fuel ∧
    ((NewFibonacci max).Do fuel fn eff).2.sleeps = eff.sleeps ++ List.replicate fuel 1 := by
  cases fuel with
  | zero => simp [Fibonacci.Do_zero]
  | succ k =>
    have h0 : (NewFibonacci max).n ≤ (NewFibonacci max).max := by
      simp only [NewFibonacci]; omega
    rw [Fibonacci.Do_retry k _ fn eff h0 (hfail _)]
    simp only [NewFibonacci, nextIndex_zero]
    obtain ⟨h1, h2, h3⟩ := Fibonacci.Do_stuck fn hfail max hmax k
      { state := (fn.Do eff.state).2, executions := eff.executions + 1,
        sleeps := eff.sleeps ++ [1] }
    refine ⟨h1, ?_, ?_⟩
    · rw [h2]; simp only []; omega
    · rw [h3]; simp [List.replicate_succ]

theorem failingJob_alwaysFails : AlwaysFails failingJob := by
  intro s
  rfl


/-- C1 (code departs from the claim).  `NewFibonacci(2).Do` and `RetriableJob.Do` on the
always-failing job of `job_test.go` never return: however many calls of `Do` are
allowed, no result has been produced and the job has been executed once per call, so
more than `max + 1` times. -/
theorem Fibonacci_Do_failing_never_returns (fuel : Nat) :
    ((NewFibonacci 2).Do fuel failingJob (Effects.start ())).1 = none ∧
    ((NewFibonacci 2).Do fuel failingJob (Effects.start ())).2.executions = fuel ∧
    ((NewRetriableJob failingJob).Do fuel (Effects.start ())).1 = none ∧
    ((NewRetriableJob failingJob).Do fuel (Effects.start ())).2.executions = fuel := by
  obtain ⟨a1, a2, -⟩ :=
    Fibonacci.Do_diverges failingJob failingJob_alwaysFails 2 (by decide) fuel (Effects.start ())
  obtain ⟨b1, b2, -⟩ :=
    Fibonacci.Do_diverges failingJob failingJob_alwaysFails 3 (by decide) fuel (Effects.start ())
  refine ⟨a1, ?_, b1, ?_⟩
  · rw [a2]; simp [Effects.start]
  · show ((NewFibonacci 3).Do fuel failingJob (Effects.start ())).2.executions = fuel
    rw [b2]; simp [Effects.start]

/-- C2 (code departs from the claim).  On the always-failing job the delays slept by
`NewFibonacci(5).Do` are all one second: the index is replaced by the rounded value, which
is 1 at index 0 and at index 1, instead of being incremented.  The first six delays are
`1, 1, 1, 1, 1, 1`, not `0, 1, 1, 2, 3, 5`. -/
theorem Fibonacci_Do_delays_constant :
    (∀ fuel : Nat,
      ((NewFibonacci 5).Do fuel failingJob (Effects.start ())).2.sleeps
        = List.replicate fuel 1) ∧
    ((NewFibonacci 5).Do 6 failingJob (Effects.start ())).2.sleeps ≠ [0, 1, 1, 2, 3, 5] ∧
    nextIndex 0 = 1 ∧ nextIndex 1 = 1 := by
  have h : ∀ fuel : Nat,
      ((NewFibonacci 5).Do fuel failingJob (Effects.start ())).2.sleeps
        = List.replicate fuel 1 := by
    intro fuel
    obtain ⟨-, -, a3⟩ :=
      Fibonacci.Do_diverges failingJob failingJob_alwaysFails 5 (by decide) fuel
        (Effects.start ())
    rw [a3]; simp [Effects.start]
  refine ⟨h, ?_, nextIndex_zero, nextIndex_one⟩
  rw [h 6]
  decide

/-- C3.  When the counter does not exceed `max` and the next execution of the item
succeeds, `Do` returns exactly the outcome of that execution, having executed the item
once and slept not at all; `RetriableJob.Do` (counter 0, `max` 3) does the same. -/
theorem Fibonacci_Do_success {σ α : Type} (strategy : Fibonacci) (fn : Job σ α)
    (eff : Effects σ) (fuel : Nat) (hle : strategy.n ≤ strategy.max)
    (hok : (fn.Do eff.state).1.IsOk = true) :
    strategy.Do (fuel + 1) fn eff =
      (some (fn.Do eff.state).1,
        { state := (fn.Do eff.state).2, executions := eff.executions + 1,
          sleeps := eff.sleeps }) ∧
    (NewRetriableJob fn).Do (fuel + 1) eff =
      (some (fn.Do eff.state).1,
        { state := (fn.Do eff.state).2, executions := eff.executions + 1,
          sleeps := eff.sleeps }) := by
  refine ⟨Fibonacci.Do_ok fuel strategy fn eff hle hok, ?_⟩
  exact Fibonacci.Do_ok fuel (NewFibonacci 3) fn eff (by simp [NewFibonacci]) hok

theorem Fibonacci_Do_success_witness :
    (NewFibonacci 3).n ≤ (NewFibonacci 3).max ∧
    (((DummyJob (Ok "done") : Job Unit String).Do (Effects.start ()).state).1.IsOk = true) ∧
    ((NewFibonacci 3).Do 1 (DummyJob (Ok "done") : Job Unit String) (Effects.start ()) =
      (some (Ok "done"), { state := (), executions := 1, sleeps := [] }) ∧
    (NewRetriableJob (DummyJob (Ok "done") : Job Unit String)).Do 1 (Effects.start ()) =
      (some (Ok "done"), { state := (), executions := 1, sleeps := [] })) :=
  ⟨by decide, rfl,
    Fibonacci_Do_success (NewFibonacci 3) (DummyJob (Ok "done")) (Effects.start ()) 0
      (by decide) rfl⟩

/-- C4.  `NewFibonacci(0).Do` on an always-failing item executes it exactly once (and
sleeps one second) and then returns the failure "maximum retries reached"; and `Do`
entered with a counter greater than `max` returns that failure with no execution and
no sleep, whatever the item (failing or not). -/
theorem Fibonacci_Do_exhaustion {σ α τ β : Type} (fn : Job σ α) (hfail : AlwaysFails fn)
    (item : Job τ β) (strategy : Fibonacci) (hgt : strategy.n > strategy.max) (fuel : Nat)
    (eff : Effects σ) (before : Effects τ) :
    (NewFibonacci 0).Do (fuel + 2) fn eff =
      (some (Err "maximum retries reached"),
        { state := (fn.Do eff.state).2, executions := eff.executions + 1,
          sleeps := eff.sleeps ++ [1] }) ∧
    strategy.Do (fuel + 1) item before = (some (Err "maximum retries reached"), before) := by
  refine ⟨?_, Fibonacci.Do_exhausted fuel strategy item before hgt⟩
  rw [Fibonacci.Do_retry (fuel + 1) (NewFibonacci 0) fn eff (by simp [NewFibonacci])
    (hfail _)]
  simp only [NewFibonacci, nextIndex_zero]
  exact Fibonacci.Do_exhausted fuel _ fn _ (by decide)

theorem Fibonacci_Do_exhaustion_witness :
    AlwaysFails failingJob ∧
    ((NewFibonacci (-1)).n > (NewFibonacci (-1)).max) ∧
    ((NewFibonacci 0).Do 2 failingJob (Effects.start ()) =
      (some (Err "maximum retries reached"),
        { state := (), executions := 1, sleeps := [1] }) ∧
    (NewFibonacci (-1)).Do 1 (DummyJob (Ok "done") : Job Unit String) (Effects.start ()) =
      (some (Err "maximum retries reached"), Effects.start ())) :=
  ⟨failingJob_alwaysFails, by decide,
    Fibonacci_Do_exhaustion failingJob failingJob_alwaysFails
      (DummyJob (Ok "done") : Job Unit String) (NewFibonacci (-1)) (by decide) 0
      (Effects.start ()) (Effects.start ())⟩

/-! ## Theorems: worker and pool -/

/-- Every step of the system changes the `WaitGroup` counter by exactly as much as the
number of accepted submissions: completions never touch it. -/
theorem System.step_wg (sys next : System) (e : SysEvent) (h : sys.step e = some next) :
    next.pool.wg - (next.accepted : Int) = sys.pool.wg - (sys.accepted : Int) := by
  cases e with
  | submit =>
    simp only [System.step, Option.some.injEq] at h
    subst h
    simp only [Pool.Submit]
    push_cast
    ring
  | hand i now =>
    simp only [System.step] at h
    split at h
    · exact absurd h (by simp)
    · simp only [Option.bind_eq_some, Option.map_eq_some'] at h
      obtain ⟨p, -, q, -, rfl⟩ := h
      rfl
  | worker i e =>
    simp only [System.step, Option.bind_eq_some] at h
    obtain ⟨p, -, h⟩ := h
    cases e with
    | delivered now => exact absurd h (by simp)
    | cancelled =>
      simp only [] at h
      split at h
      · simp only [Option.map_eq_some'] at h
        obtain ⟨q, -, rfl⟩ := h
        rfl
      · exact absurd h (by simp)
    | finished now isErr =>
      simp only [Option.map_eq_some'] at h
      obtain ⟨q, -, rfl⟩ := h
      rfl
    | advertised =>
      simp only [Option.map_eq_some'] at h
      obtain ⟨q, -, rfl⟩ := h
      rfl
    | drain =>
      simp only [Option.map_eq_some'] at h
      obtain ⟨q, -, rfl⟩ := h
      rfl
  | cancel =>
    simp only [System.step, Option.some.injEq] at h
    subst h
    rfl

/-- Along every run the `WaitGroup` counter moves with the number of accepted
submissions only. -/
theorem System.run_wg (es : List SysEvent) (sys last : System)
    (h : sys.run es = some last) :
    last.pool.wg - (last.accepted : Int) = sys.pool.wg - (sys.accepted : Int) := by
  induction es generalizing sys with
  | nil =>
    simp only [System.run, Option.some.injEq] at h
    subst h
    rfl
  | cons e es ih =>
    simp only [System.run, Option.bind_eq_some] at h
    obtain ⟨next, h1, h2⟩ := h
    rw [ih next h2, System.step_wg sys next e h1]

/-- C5 (code departs from the claim).  In a pool of one worker: the worker advertises
itself, one item is submitted, handed to the worker and executed to completion.  One
submission has been accepted and one execution completed, yet the outstanding-work
counter is 1, not 0, and the wait of `Shutdown` cannot return. -/
theorem Pool_wg_not_decremented :
    ((NewSystem (fun _ => 0) 1).toOption.bind fun sys =>
        sys.run
          [SysEvent.worker 0 WorkerEvent.advertised, SysEvent.submit, SysEvent.hand 0 10,
            SysEvent.worker 0 (WorkerEvent.finished 25 false)]).map
      (fun sys => (sys.accepted, sys.completed, sys.pool.wg, sys.pool.cancel.waitReturns))
      = some (1, 1, 1, false) := by
  decide


/-- Without worker goroutines no step of the system completes an execution, none
creates a goroutine, and none takes back an accepted submission. -/
theorem System.step_no_workers (sys next : System) (e : SysEvent) (hp : sys.procs = [])
    (h : sys.step e = some next) :
    next.procs = [] ∧ next.completed = sys.completed ∧ sys.accepted ≤ next.accepted := by
  cases e with
  | submit =>
    simp only [System.step, Option.some.injEq] at h
    subst h
    exact ⟨hp, rfl, Nat.le_succ _⟩
  | hand i now =>
    simp only [System.step, hp] at h
    split at h <;> simp at h
  | worker i e =>
    simp [System.step, hp] at h
  | cancel =>
    simp only [System.step, Option.some.injEq] at h
    subst h
    exact ⟨hp, rfl, Nat.le_refl _⟩

/-- Without worker goroutines no run of the system completes an execution. -/
theorem System.run_no_workers (es : List SysEvent) (sys last : System) (hp : sys.procs = [])
    (h : sys.run es = some last) :
    last.procs = [] ∧ last.completed = sys.completed ∧ sys.accepted ≤ last.accepted := by
  induction es generalizing sys with
  | nil =>
    simp only [System.run, Option.some.injEq] at h
    subst h
    exact ⟨hp, rfl, Nat.le_refl _⟩
  | cons e es ih =>
    simp only [System.run, Option.bind_eq_some] at h
    obtain ⟨next, h1, h2⟩ := h
    obtain ⟨np, nc, na⟩ := System.step_no_workers sys next e hp h1
    obtain ⟨lp, lc, la⟩ := ih next np h2
    exact ⟨lp, lc.trans nc, Nat.le_trans na la⟩

/-- C6 (code departs from the claim).  In the pool of `NewPool(ctx, 0)`, with no
cancellation needed: after one `Submit` one submission has been accepted and the job is
in the queue, `dispatch` can hand it to no worker at any time, and whatever happens next,
in any order and for any length, no execution ever completes: the submitted item is never
executed. -/
theorem Pool_no_workers_item_never_executed :
    ((NewSystem (fun _ => 0) 0).toOption.bind fun sys => sys.run [SysEvent.submit]).map
        (fun sys => (sys.procs, sys.queue, sys.accepted, sys.completed))
      = some ([], 1, 1, 0) ∧
    (∀ (i : Nat) (now : Int),
      ((NewSystem (fun _ => 0) 0).toOption.bind fun sys =>
          sys.run [SysEvent.submit, SysEvent.hand i now]) = none) ∧
    (∀ es : List SysEvent,
      match (NewSystem (fun _ => 0) 0).toOption.bind fun sys =>
          sys.run (SysEvent.submit :: es) with
      | some last => last.completed = 0 ∧ 1 ≤ last.accepted
      | none => True) := by
  have hnew : (NewSystem (fun _ => 0) 0).toOption
      = some { pool := { workerPoolCap := 0, workers := [], wg := 0, cancelled := false },
               procs := [], queue := 0, accepted := 0, completed := 0 } := rfl
  refine ⟨by decide, ?_, ?_⟩
  · intro i now
    rw [hnew]
    rfl
  · intro es
    rw [hnew]
    simp only [Option.some_bind, System.run, System.step]
    split
    · rename_i last hlast
      obtain ⟨-, hc, ha⟩ := System.run_no_workers es _ last rfl hlast
      exact ⟨hc, ha⟩
    · trivial

/-- C7 (code departs from the claim).  A fresh worker that has advertised itself and is
then told to drain has not stopped: it is still waiting; and when an item is delivered it
executes it before it stops.  So it is not true of the code that every worker drained
while idle executes no further item. -/
theorem Worker_drain_idle_counterexample :
    (Worker.Start (NewWorker 0 0)).run [WorkerEvent.advertised, WorkerEvent.drain]
      = some { worker := (NewWorker 0 0).Drain, phase := Phase.waiting, executed := 0,
               printed := 0 } ∧
    (Worker.Start (NewWorker 0 0)).run
        [WorkerEvent.advertised, WorkerEvent.drain, WorkerEvent.delivered 5,
          WorkerEvent.finished 9 false]
      = some { worker := { ID := 0, lastUse := 5, lastDuration := 4, drain := true },
               phase := Phase.stopped, executed := 1, printed := 0 } ∧
    ¬ (∀ (p q : WorkerProc) (es : List WorkerEvent), p.phase = Phase.waiting →
        p.run (WorkerEvent.drain :: es) = some q → q.executed = p.executed) := by
  refine ⟨by decide, by decide, ?_⟩
  intro h
  have h1 := h { worker := NewWorker 0 0, phase := Phase.waiting, executed := 0, printed := 0 }
    { worker := { ID := 0, lastUse := 5, lastDuration := 4, drain := true },
      phase := Phase.stopped, executed := 1, printed := 0 }
    [WorkerEvent.delivered 5, WorkerEvent.finished 9 false] rfl (by decide)
  exact absurd h1 (by decide)

/-- What the goroutine does around `Drain`.  On a waiting worker `Drain` only sets the
flag: the worker is still waiting; from there cancellation stops it with nothing executed,
and a delivered item is executed to completion, after which the worker is stopped.  On a
running worker `Drain` sets the flag; when the item finishes the worker is stopped, having
executed it.  A stopped worker can neither advertise itself, nor receive, nor finish, nor
be cancelled. -/
theorem Worker_drain_semantics (w : Worker) (k m : Nat) (t0 t1 : Int) (isErr : Bool) :
    (({ worker := w, phase := Phase.waiting, executed := k, printed := m } : WorkerProc).step
        WorkerEvent.drain
      = some { worker := w.Drain, phase := Phase.waiting, executed := k, printed := m }) ∧
    (({ worker := w, phase := Phase.waiting, executed := k, printed := m } : WorkerProc).run
        [WorkerEvent.drain, WorkerEvent.cancelled]
      = some { worker := w.Drain, phase := Phase.stopped, executed := k, printed := m }) ∧
    (({ worker := w, phase := Phase.waiting, executed := k, printed := m } : WorkerProc).run
        [WorkerEvent.drain, WorkerEvent.delivered t0, WorkerEvent.finished t1 isErr]
      = some { worker := { ID := w.ID, lastUse := t0, lastDuration := t1 - t0, drain := true },
               phase := Phase.stopped, executed := k + 1,
               printed := if isErr then m + 1 else m }) ∧
    (({ worker := w, phase := Phase.running, executed := k, printed := m } : WorkerProc).run
        [WorkerEvent.drain, WorkerEvent.finished t1 isErr]
      = some { worker := { ID := w.ID, lastUse := w.lastUse,
                           lastDuration := t1 - w.lastUse, drain := true },
               phase := Phase.stopped, executed := k + 1,
               printed := if isErr then m + 1 else m }) ∧
    (({ worker := w, phase := Phase.stopped, executed := k, printed := m } : WorkerProc).step
        WorkerEvent.advertised = none) ∧
    (({ worker := w, phase := Phase.stopped, executed := k, printed := m } : WorkerProc).step
        (WorkerEvent.delivered t0) = none) ∧
    (({ worker := w, phase := Phase.stopped, executed := k, printed := m } : WorkerProc).step
        (WorkerEvent.finished t1 isErr) = none) ∧
    (({ worker := w, phase := Phase.stopped, executed := k, printed := m } : WorkerProc).step
        WorkerEvent.cancelled = none) := by
  refine ⟨rfl, rfl, ?_, ?_, rfl, rfl, rfl, rfl⟩
  · simp [WorkerProc.run, WorkerProc.step, Worker.Drain]
  · simp [WorkerProc.run, WorkerProc.step, Worker.Drain]

/-- The loop of `NewPool` builds the workers in index order. -/
theorem NewPool_loop (clock : Nat → Int) (l : List Nat) (acc : List Worker) :
    l.foldl (fun (workers : List Worker) (i : Nat) =>
        workers ++ [NewWorker (Int.ofNat i) (clock i)]) acc
      = acc ++ l.map (fun i => NewWorker (Int.ofNat i) (clock i)) := by
  induction l generalizing acc with
  | nil => simp
  | cons i l ih =>
    rw [List.foldl_cons, ih, List.map_cons, List.append_assoc]
    rfl

/-- C8.  For every worker count `n`, `NewPool(ctx, n)` returns a pool of size `n` whose
workers carry the ids `0, …, n-1` in that order, none draining, none with a duration
sample, and whose availability channel has capacity `n`. -/
theorem NewPool_spec (clock : Nat → Int) (n : Nat) :
    ∃ pool : Pool,
      NewPool clock (n : Int) = Except.ok pool ∧
      pool.Size = (n : Int) ∧
      pool.workers.map Worker.ID = (List.range n).map Int.ofNat ∧
      pool.workers.map Worker.drain = List.replicate n false ∧
      pool.workers.map Worker.lastDuration = List.replicate n 0 ∧
      pool.workerPoolCap = (n : Int) := by
  have hw : (List.range n).foldl (fun (workers : List Worker) (i : Nat) =>
        workers ++ [NewWorker (Int.ofNat i) (clock i)]) []
      = (List.range n).map (fun i => NewWorker (Int.ofNat i) (clock i)) := by
    rw [NewPool_loop]; simp
  refine ⟨{ workerPoolCap := (n : Int),
             workers := (List.range n).map (fun i => NewWorker (Int.ofNat i) (clock i)),
             wg := 0,
             cancelled := false }, ?_, ?_, ?_, ?_, ?_, ?_⟩
  · simp only [NewPool, Int.toNat_ofNat]
    rw [if_neg (by omega), hw]
  · simp [Pool.Size]
  · simp only [List.map_map]
    apply List.ext_getElem <;> simp [NewWorker]
  · simp only [List.map_map]
    apply List.ext_getElem <;> simp [NewWorker]
  · simp only [List.map_map]
    apply List.ext_getElem <;> simp [NewWorker]
  · rfl


/-! ## Theorems: scaler -/

/-- The sampling loop keeps: the count is non-negative, and it is at least 1 as soon as
the sum is non-zero. -/
theorem Scaler.sample_loop (workers : List Worker) (acc : Int × Int)
    (h0 : 0 ≤ acc.2) (h1 : acc.1 ≠ 0 → 1 ≤ acc.2) :
    0 ≤ (workers.foldl
          (fun (acc : Int × Int) (worker : Worker) =>
            if worker.lastDuration ≠ 0 then
              (wrap64 (acc.1 + worker.lastDuration), acc.2 + 1)
            else acc) acc).2 ∧
    ((workers.foldl
          (fun (acc : Int × Int) (worker : Worker) =>
            if worker.lastDuration ≠ 0 then
              (wrap64 (acc.1 + worker.lastDuration), acc.2 + 1)
            else acc) acc).1 ≠ 0 →
      1 ≤ (workers.foldl
          (fun (acc : Int × Int) (worker : Worker) =>
            if worker.lastDuration ≠ 0 then
              (wrap64 (acc.1 + worker.lastDuration), acc.2 + 1)
            else acc) acc).2) := by
  induction workers generalizing acc with
  | nil => exact ⟨h0, h1⟩
  | cons w ws ih =>
    rw [List.foldl_cons]
    apply ih
    · split
      · show 0 ≤ acc.2 + 1
        omega
      · exact h0
    · split
      · intro _
        show 1 ≤ acc.2 + 1
        omega
      · exact h1

/-- When the sum of the samples is non-zero at least one worker was counted. -/
theorem Scaler.sample_count_pos (workers : List Worker)
    (h : (Scaler.sample workers).1 ≠ 0) : 1 ≤ (Scaler.sample workers).2 :=
  (Scaler.sample_loop workers (0, 0) (le_refl 0) (fun h0 => absurd rfl h0)).2 h

/-- C9 (code departs from the claim).  On a new scaler and two workers with samples 10
and 20, `load()` leaves 30, the sum, in `stats`; the mean is 15. -/
theorem Scaler_load_first_sample_is_sum :
    (NewScaler { workerPoolCap := 2, workers := [sampled 0 10, sampled 1 20], wg := 0,
                 cancelled := false }).load
      = Except.ok
          { NewScaler { workerPoolCap := 2, workers := [sampled 0 10, sampled 1 20],
                        wg := 0, cancelled := false } with
            period := 1, stats := 30 } ∧
    Int.tdiv (10 + 20) 2 = 15 := by
  constructor
  · rfl
  · decide

/-- The value of a `load()` that is not skipped: it returns (the count is not zero),
with the mean in `stats` and the classification applied. -/
theorem Scaler.load_not_skipped (scaler : Scaler) (hprev : scaler.stats ≠ 0)
    (hsum : (Scaler.sample scaler.pool.workers).1 ≠ 0) :
    scaler.load = Except.ok
      (if (scaler.trend (wrap64 (scaler.period + 1))
            (decide (Int.tdiv (Scaler.sample scaler.pool.workers).1
              (Scaler.sample scaler.pool.workers).2 > scaler.stats))).1 ≥ scaler.samples then
        { scaler with
          stats := Int.tdiv (Scaler.sample scaler.pool.workers).1
            (Scaler.sample scaler.pool.workers).2
          lower := decide (Int.tdiv (Scaler.sample scaler.pool.workers).1
            (Scaler.sample scaler.pool.workers).2 > scaler.stats)
          period := 0
          level :=
            if (scaler.trend (wrap64 (scaler.period + 1))
                (decide (Int.tdiv (Scaler.sample scaler.pool.workers).1
                  (Scaler.sample scaler.pool.workers).2 > scaler.stats))).2 < 3 then
              (scaler.trend (wrap64 (scaler.period + 1))
                (decide (Int.tdiv (Scaler.sample scaler.pool.workers).1
                  (Scaler.sample scaler.pool.workers).2 > scaler.stats))).2 + 1
            else
              (scaler.trend (wrap64 (scaler.period + 1))
                (decide (Int.tdiv (Scaler.sample scaler.pool.workers).1
                  (Scaler.sample scaler.pool.workers).2 > scaler.stats))).2
          overload := decide (Int.tdiv (Scaler.sample scaler.pool.workers).1
            (Scaler.sample scaler.pool.workers).2 > scaler.stats) }
      else
        { scaler with
          stats := Int.tdiv (Scaler.sample scaler.pool.workers).1
            (Scaler.sample scaler.pool.workers).2
          lower := decide (Int.tdiv (Scaler.sample scaler.pool.workers).1
            (Scaler.sample scaler.pool.workers).2 > scaler.stats)
          period := (scaler.trend (wrap64 (scaler.period + 1))
            (decide (Int.tdiv (Scaler.sample scaler.pool.workers).1
              (Scaler.sample scaler.pool.workers).2 > scaler.stats))).1
          level := (scaler.trend (wrap64 (scaler.period + 1))
            (decide (Int.tdiv (Scaler.sample scaler.pool.workers).1
              (Scaler.sample scaler.pool.workers).2 > scaler.stats))).2 }) := by
  have hcount : (Scaler.sample scaler.pool.workers).2 ≠ 0 := by
    have := Scaler.sample_count_pos _ hsum
    omega
  have hskip : ¬ (scaler.stats = 0 ∨ (Scaler.sample scaler.pool.workers).1 = 0) := by
    simp [hprev, hsum]
  simp only [Scaler.load]
  rw [if_neg hskip, if_neg hcount]
  split <;> rfl

/-- The value of a skipped `load()`: the counter is incremented and `stats` is the raw
sum of the samples. -/
theorem Scaler.load_skipped (scaler : Scaler)
    (h : scaler.stats = 0 ∨ (Scaler.sample scaler.pool.workers).1 = 0) :
    scaler.load = Except.ok
      { scaler with period := wrap64 (scaler.period + 1),
                    stats := (Scaler.sample scaler.pool.workers).1 } := by
  simp only [Scaler.load]
  rw [if_pos h]

/-- The level after trend handling stays within the bounds of the level before. -/
theorem Scaler.trend_level (scaler : Scaler) (period : Int) (lower : Bool) :
    (1 ≤ scaler.level → 1 ≤ (scaler.trend period lower).2) ∧
    (scaler.level ≤ 3 → (scaler.trend period lower).2 ≤ 3) := by
  unfold Scaler.trend
  split
  · split
    · exact ⟨fun _ => by show 1 ≤ scaler.level - 1; omega,
        fun _ => by show scaler.level - 1 ≤ 3; omega⟩
    · exact ⟨fun h => h, fun h => h⟩
  · exact ⟨fun h => h, fun h => h⟩

/-- A `load()` that returns keeps the level within `1..3` and leaves `samples` alone. -/
theorem Scaler.load_level (scaler next : Scaler) (h : scaler.load = Except.ok next) :
    (1 ≤ scaler.level → 1 ≤ next.level) ∧ (scaler.level ≤ 3 → next.level ≤ 3) ∧
    next.samples = scaler.samples := by
  by_cases hskip : scaler.stats = 0 ∨ (Scaler.sample scaler.pool.workers).1 = 0
  · rw [Scaler.load_skipped scaler hskip] at h
    injection h with h
    subst h
    exact ⟨fun h => h, fun h => h, rfl⟩
  · rw [not_or] at hskip
    rw [Scaler.load_not_skipped scaler hskip.1 hskip.2] at h
    injection h with h
    subst h
    obtain ⟨t1, t3⟩ := Scaler.trend_level scaler (wrap64 (scaler.period + 1))
      (decide (Int.tdiv (Scaler.sample scaler.pool.workers).1
        (Scaler.sample scaler.pool.workers).2 > scaler.stats))
    split
    · refine ⟨fun h1 => ?_, fun h3 => ?_, rfl⟩
      · have := t1 h1
        simp only []
        split <;> omega
      · have := t3 h3
        simp only []
        split <;> omega
    · exact ⟨t1, t3, rfl⟩

/-- In every reachable scaler state the level is within `1..3` and `samples` is 3. -/
theorem Scaler.Reachable.bounds (scaler : Scaler) (h : Scaler.Reachable scaler) :
    1 ≤ scaler.level ∧ scaler.level ≤ 3 ∧ scaler.samples = 3 := by
  induction h with
  | new pool => exact ⟨by simp [NewScaler], by simp [NewScaler], rfl⟩
  | load s next _ hload ih =>
    obtain ⟨l1, l3, hs⟩ := Scaler.load_level s next hload
    exact ⟨l1 ih.1, l3 ih.2.1, hs.trans ih.2.2⟩
  | pool s pool _ ih => exact ih

/-- C10.  A `load()` that is not skipped returns, with `stats` the quotient of the sum by
the count.  If the counter after trend handling has reached `samples`, the counter is
reset, the level after trend handling is raised by one up to 3 (with a positive
`samples` that is also the level on entry raised by one up to 3), and `overload` says
whether the new mean exceeds the previous statistic; otherwise `overload` is unchanged.
The hypothesis `level ≤ 3` holds in every reachable state (`Scaler.Reachable.bounds`). -/
theorem Scaler_load_classify (scaler : Scaler) (hprev : scaler.stats ≠ 0)
    (hsum : (Scaler.sample scaler.pool.workers).1 ≠ 0) (hlevel : scaler.level ≤ 3) :
    ∃ next : Scaler,
      scaler.load = Except.ok next ∧
      next.stats
        = Int.tdiv (Scaler.sample scaler.pool.workers).1 (Scaler.sample scaler.pool.workers).2 ∧
      ((scaler.trend (wrap64 (scaler.period + 1)) (decide (next.stats > scaler.stats))).1
            ≥ scaler.samples →
        next.period = 0 ∧
        next.level
          = min ((scaler.trend (wrap64 (scaler.period + 1))
                  (decide (next.stats > scaler.stats))).2 + 1) 3 ∧
        (0 < scaler.samples → next.level = min (scaler.level + 1) 3) ∧
        next.overload = decide (next.stats > scaler.stats)) ∧
      ((scaler.trend (wrap64 (scaler.period + 1)) (decide (next.stats > scaler.stats))).1
            < scaler.samples →
        next.overload = scaler.overload) := by
  have hafter := (Scaler.trend_level scaler (wrap64 (scaler.period + 1))
      (decide (Int.tdiv (Scaler.sample scaler.pool.workers).1
        (Scaler.sample scaler.pool.workers).2 > scaler.stats))).2 hlevel
  refine ⟨_, Scaler.load_not_skipped scaler hprev hsum, ?_, ?_, ?_⟩
  · split <;> rfl
  · split
    · rename_i hge
      intro _
      refine ⟨rfl, ?_, ?_, rfl⟩
      · simp only []
        split <;> omega
      · intro hpos
        have hsame : (scaler.trend (wrap64 (scaler.period + 1))
            (decide (Int.tdiv (Scaler.sample scaler.pool.workers).1
              (Scaler.sample scaler.pool.workers).2 > scaler.stats))).2 = scaler.level := by
          unfold Scaler.trend at hge ⊢
          split
          · rename_i hflip
            rw [if_pos hflip] at hge
            simp only [] at hge
            omega
          · rfl
        simp only [hsame]
        split <;> omega
    · rename_i hge
      intro h
      exact absurd h hge
  · split
    · rename_i hge
      intro hlt
      simp only [] at hlt
      omega
    · intro _
      rfl

theorem Scaler_load_classify_witness :
    risingScaler.stats ≠ 0 ∧
    (Scaler.sample risingScaler.pool.workers).1 ≠ 0 ∧
    risingScaler.level ≤ 3 ∧
    ∃ next : Scaler,
      risingScaler.load = Except.ok next ∧
      next.stats
        = Int.tdiv (Scaler.sample risingScaler.pool.workers).1
            (Scaler.sample risingScaler.pool.workers).2 ∧
      ((risingScaler.trend (wrap64 (risingScaler.period + 1))
            (decide (next.stats > risingScaler.stats))).1 ≥ risingScaler.samples →
        next.period = 0 ∧
        next.level
          = min ((risingScaler.trend (wrap64 (risingScaler.period + 1))
                  (decide (next.stats > risingScaler.stats))).2 + 1) 3 ∧
        (0 < risingScaler.samples → next.level = min (risingScaler.level + 1) 3) ∧
        next.overload = decide (next.stats > risingScaler.stats)) ∧
      ((risingScaler.trend (wrap64 (risingScaler.period + 1))
            (decide (next.stats > risingScaler.stats))).1 < risingScaler.samples →
        next.overload = risingScaler.overload) :=
  ⟨by decide, by decide, by decide,
    Scaler_load_classify risingScaler (by decide) (by decide) (by decide)⟩

/-- The scaler in mid-run crosses the threshold on its next `load()`: the level goes
from 1 to 2 and `overload` becomes true. -/
theorem risingScaler_load :
    risingScaler.load
      = Except.ok { risingScaler with stats := 15, period := 0, level := 2, overload := true } := by
  rfl


/-! ## Theorems: option, either, result -/

/-- C17.  `Some(v).Unwrap()` is `(v, nil)` and `Some(v).IsSome()` holds; `None().Unwrap()`
has a non-nil error and `None().IsNone()` holds; every Option is `None` or a `Some`, its
`Unwrap` has an error exactly when `IsNone()` holds, and `UnwrapOr(d)` is `d` for `None`
and the contained value for `Some`. -/
theorem Option_Unwrap_spec {T : Type} [Inhabited T] (v d : T) (o : twoface.Option T) :
    (Some v).Unwrap = (v, none) ∧
    (Some v).IsSome = true ∧
    (None : twoface.Option T).Unwrap.2 = some "called `Unwrap` on a `None` value" ∧
    (None : twoface.Option T).IsNone = true ∧
    (o = None ∨ ∃ w : T, o = Some w) ∧
    (o.Unwrap.2.isSome = o.IsNone) ∧
    ((None : twoface.Option T).UnwrapOr d = d) ∧
    ((Some v).UnwrapOr d = v) ∧
    (o.UnwrapOr d = if o.IsNone then d else o.Unwrap.1) := by
  refine ⟨rfl, rfl, rfl, rfl, ?_, ?_, rfl, rfl, ?_⟩
  · obtain ⟨value⟩ := o
    cases value with
    | none => exact Or.inl rfl
    | some w => exact Or.inr ⟨w, rfl⟩
  · obtain ⟨value⟩ := o
    cases value <;> rfl
  · obtain ⟨value⟩ := o
    cases value <;> rfl

/-- C18.  `Left(v)` is left and not right, `UnwrapLeft` returns `v` and `UnwrapRight`
panics with "called `UnwrapRight` on a `Left` value"; symmetrically for `Right(v)`. -/
theorem Either_Unwrap_spec {L R : Type} (l : L) (r : R) :
    (Left l : Either L R).IsLeft = true ∧
    (Left l : Either L R).IsRight = false ∧
    (Left l : Either L R).UnwrapLeft = Except.ok l ∧
    (Left l : Either L R).UnwrapRight
      = Except.error "called `UnwrapRight` on a `Left` value" ∧
    (Right r : Either L R).IsRight = true ∧
    (Right r : Either L R).IsLeft = false ∧
    (Right r : Either L R).UnwrapRight = Except.ok r ∧
    (Right r : Either L R).UnwrapLeft
      = Except.error "called `UnwrapLeft` on a `Right` value" :=
  ⟨rfl, rfl, rfl, rfl, rfl, rfl, rfl, rfl⟩

/-- C19.  `Ok(v)` is Ok and not Err, `Unwrap` returns `v` and `UnwrapErr` panics; `Err(e)`
is Err and not Ok, `UnwrapErr` returns `e` and `Unwrap` panics.  So on a Result built by
`Ok` or `Err`, `Unwrap` panics exactly when `IsErr()` and `UnwrapErr` exactly when
`IsOk()`. -/
theorem Result_Unwrap_spec {T E : Type} [ToString E] (v : T) (e : E) :
    (Ok v : Result T E).IsOk = true ∧
    (Ok v : Result T E).IsErr = false ∧
    (Ok v : Result T E).Unwrap = Except.ok v ∧
    (Ok v : Result T E).UnwrapErr = Except.error "called `UnwrapErr` on an `Ok` value" ∧
    (Err e : Result T E).IsOk = false ∧
    (Err e : Result T E).IsErr = true ∧
    (Err e : Result T E).UnwrapErr = Except.ok e ∧
    (Err e : Result T E).Unwrap
      = Except.error ("called `Unwrap` on an `Err` value: " ++ toString e) ∧
    ((∃ msg, (Ok v : Result T E).Unwrap = Except.error msg) ↔ (Ok v : Result T E).IsErr = true) ∧
    ((∃ msg, (Err e : Result T E).Unwrap = Except.error msg) ↔ (Err e : Result T E).IsErr = true) ∧
    ((∃ msg, (Ok v : Result T E).UnwrapErr = Except.error msg)
      ↔ (Ok v : Result T E).IsOk = true) ∧
    ((∃ msg, (Err e : Result T E).UnwrapErr = Except.error msg)
      ↔ (Err e : Result T E).IsOk = true) := by
  refine ⟨rfl, rfl, rfl, rfl, rfl, rfl, rfl, rfl, ?_, ?_, ?_, ?_⟩
  · simp [Ok, Result.Unwrap, Result.IsErr]
  · simp [Err, Result.Unwrap, Result.IsErr]
  · simp [Ok, Result.UnwrapErr, Result.IsOk]
  · simp [Err, Result.UnwrapErr, Result.IsOk]

/-- C20.  On `Ok(v)`, `Map(f)` is `Ok(f(v))` and `FlatMap(g)`, `AndThen(g)` are `g(v)`; on
`Err(e)` all three return `Err(e)`, whatever the function; `AndThen` and `FlatMap` agree
on every Result. -/
theorem Result_Map_spec {T E : Type} (v : T) (e : E) (f : T → T) (g : T → Result T E)
    (r : Result T E) :
    (Ok v : Result T E).Map f = Ok (f v) ∧
    (Ok v : Result T E).FlatMap g = g v ∧
    (Ok v : Result T E).AndThen g = g v ∧
    (Err e : Result T E).Map f = Err e ∧
    (Err e : Result T E).FlatMap g = Err e ∧
    (Err e : Result T E).AndThen g = Err e ∧
    r.AndThen g = r.FlatMap g :=
  ⟨rfl, rfl, rfl, rfl, rfl, rfl, rfl⟩


/-! ## Theorems: scaler ticks -/

/-- `wrap64` is the identity on the 64-bit range. -/
theorem wrap64_of_range (x : Int) (h1 : -9223372036854775808 ≤ x)
    (h2 : x < 9223372036854775808) : wrap64 x = x := by
  unfold wrap64
  omega

/-- `load()` always returns. -/
theorem Scaler.load_total (scaler : Scaler) : ∃ next, scaler.load = Except.ok next := by
  by_cases hskip : scaler.stats = 0 ∨ (Scaler.sample scaler.pool.workers).1 = 0
  · exact ⟨_, Scaler.load_skipped scaler hskip⟩
  · rw [not_or] at hskip
    exact ⟨_, Scaler.load_not_skipped scaler hskip.1 hskip.2⟩

/-- Successive `load()` calls keep the level within `1..3`. -/
theorem Scaler.loads_level (history : List (List Worker)) (scaler : Scaler)
    (h1 : 1 ≤ scaler.level) (h3 : scaler.level ≤ 3) :
    ∃ last, scaler.loads history = Except.ok last ∧ 1 ≤ last.level ∧ last.level ≤ 3 ∧
      last.samples = scaler.samples := by
  induction history generalizing scaler with
  | nil => exact ⟨scaler, rfl, h1, h3, rfl⟩
  | cons workers rest ih =>
    obtain ⟨next, hnext⟩ :=
      Scaler.load_total { scaler with pool := { scaler.pool with workers := workers } }
    obtain ⟨l1, l3, ls⟩ := Scaler.load_level _ next hnext
    obtain ⟨last, hlast, b1, b3, bs⟩ := ih next (l1 h1) (l3 h3)
    refine ⟨last, ?_, b1, b3, bs.trans ls⟩
    simp only [Scaler.loads, hnext]
    exact hlast

/-- C15.  Starting from `NewScaler`, any finite sequence of `load()` calls over arbitrary
worker collections returns, and leaves the level within `1..3`. -/
theorem Scaler_level_clamped (pool : Pool) (history : List (List Worker)) :
    ∃ last, (NewScaler pool).loads history = Except.ok last ∧
      1 ≤ last.level ∧ last.level ≤ 3 := by
  obtain ⟨last, hlast, b1, b3, -⟩ :=
    Scaler.loads_level history (NewScaler pool) (by simp [NewScaler]) (by simp [NewScaler])
  exact ⟨last, hlast, b1, b3⟩


/-- One classified tick with a mean above the previous statistic, on a scaler with
`samples = 3` and a counter in `0 .. 2^63-2`: the trend is "rising" afterwards, the counter
is in `0..2`; and if the trend was already rising, the overload flag stays set if it was
set and otherwise either becomes set or the counter has advanced by one. -/
theorem Scaler.rise_step (scaler : Scaler) (hs : scaler.samples = 3)
    (hp0 : 0 ≤ scaler.period) (hp1 : scaler.period < 9223372036854775807)
    (hprev : scaler.stats ≠ 0) (hsum : (Scaler.sample scaler.pool.workers).1 ≠ 0)
    (hrise : Int.tdiv (Scaler.sample scaler.pool.workers).1
      (Scaler.sample scaler.pool.workers).2 > scaler.stats) :
    ∃ next, scaler.load = Except.ok next ∧ next.lower = true ∧ next.samples = 3 ∧
      0 ≤ next.period ∧ next.period < 3 ∧
      (scaler.lower = true →
        (scaler.overload = true → next.overload = true) ∧
        (next.overload = true ∨ next.period = scaler.period + 1)) := by
  have hd : decide (Int.tdiv (Scaler.sample scaler.pool.workers).1
      (Scaler.sample scaler.pool.workers).2 > scaler.stats) = true := decide_eq_true hrise
  have hw : wrap64 (scaler.period + 1) = scaler.period + 1 :=
    wrap64_of_range _ (by omega) (by omega)
  refine ⟨_, Scaler.load_not_skipped scaler hprev hsum, ?_⟩
  simp only [hd, hw, hs, Scaler.trend]
  cases hl : scaler.lower
  · simp
  · by_cases hge : scaler.period + 1 ≥ 3
    · simp [hge]
    · simp [hge]
      omega


/-- A `load()` moves the counter to 0 or one up (no wrap-around below `2^63-1`). -/
theorem Scaler.load_period (scaler next : Scaler) (h : scaler.load = Except.ok next)
    (hp0 : 0 ≤ scaler.period) (hp1 : scaler.period < 9223372036854775807) :
    0 ≤ next.period ∧ next.period ≤ scaler.period + 1 := by
  have hw : wrap64 (scaler.period + 1) = scaler.period + 1 :=
    wrap64_of_range _ (by omega) (by omega)
  by_cases hskip : scaler.stats = 0 ∨ (Scaler.sample scaler.pool.workers).1 = 0
  · rw [Scaler.load_skipped scaler hskip] at h
    injection h with h
    subst h
    simp only [hw]
    omega
  · rw [not_or] at hskip
    rw [Scaler.load_not_skipped scaler hskip.1 hskip.2] at h
    injection h with h
    subst h
    split
    · simp only []
      omega
    · simp only [hw, Scaler.trend]
      split <;> simp only [] <;> omega

/-- After `n` calls of `load()` the counter is between 0 and its old value plus `n`. -/
theorem Scaler.loads_period (history : List (List Worker)) (scaler last : Scaler)
    (h : scaler.loads history = Except.ok last) (hp0 : 0 ≤ scaler.period)
    (hp1 : scaler.period + history.length < 9223372036854775807) :
    0 ≤ last.period ∧ last.period ≤ scaler.period + history.length := by
  induction history generalizing scaler with
  | nil =>
    simp only [Scaler.loads] at h
    injection h with h
    subst h
    simp
    exact hp0
  | cons workers rest ih =>
    simp only [List.length_cons, Nat.cast_add, Nat.cast_one] at hp1 ⊢
    obtain ⟨next, hnext⟩ :=
      Scaler.load_total { scaler with pool := { scaler.pool with workers := workers } }
    simp only [Scaler.loads, hnext] at h
    obtain ⟨n0, n1⟩ := Scaler.load_period _ next hnext hp0 (by simp only []; omega)
    simp only [] at n1
    obtain ⟨l0, l1⟩ := ih next h n0 (by omega)
    exact ⟨l0, by omega⟩

/-- The first tick of a rising run: it is classified, its mean is above the previous
statistic, its `load()` returns and the rest of the run rises from there. -/
theorem Scaler.risingRun_cons (scaler : Scaler) (workers : List Worker)
    (rest : List (List Worker)) (h : scaler.risingRun (workers :: rest) = true) :
    scaler.stats ≠ 0 ∧ (Scaler.sample workers).1 ≠ 0 ∧
    Int.tdiv (Scaler.sample workers).1 (Scaler.sample workers).2 > scaler.stats ∧
    ∃ next,
      ({ scaler with pool := { scaler.pool with workers := workers } } : Scaler).load
        = Except.ok next ∧
      next.risingRun rest = true := by
  simp only [Scaler.risingRun, Bool.and_eq_true, decide_eq_true_eq] at h
  obtain ⟨⟨⟨a, b⟩, c⟩, d⟩ := h
  refine ⟨a, b, c, ?_⟩
  obtain ⟨next, hnext⟩ :=
    Scaler.load_total { scaler with pool := { scaler.pool with workers := workers } }
  rw [hnext] at d
  exact ⟨next, hnext, d⟩


/-- When `load()` leaves the overload flag set, the action of the tick is `Shrink`. -/
theorem Scaler.tick_overload (scaler loaded : Scaler) (sent : Nat) (born clock : Nat → Int)
    (h : scaler.load = Except.ok loaded) (ho : loaded.overload = true) :
    scaler.tick sent born clock = loaded.Shrink clock := by
  simp [Scaler.tick, h, ho]

/-- C11 (the claim as stated fails).  A new scaler over one worker whose samples are
10, 20, 30, 40 on four successive ticks: the mean rises on the ticks 2, 3 and 4, three in
a row, and after the fourth tick the overload flag is still false; the action of that tick
does not shrink. -/
theorem Scaler_overload_counterexample :
    (NewScaler (idlePool 1)).loads [[sampled 0 10]] = Except.ok firstSample ∧
    firstSample.risingRun [[sampled 0 20], [sampled 0 30], [sampled 0 40]] = true ∧
    ((NewScaler (idlePool 1)).loads
        [[sampled 0 10], [sampled 0 20], [sampled 0 30], [sampled 0 40]]).toOption.map
      (fun last => (last.overload, last.period)) = some (false, 2) ∧
    (((NewScaler (idlePool 1)).loads
        [[sampled 0 10], [sampled 0 20], [sampled 0 30]]).toOption.bind
      (fun third =>
        (({ third with pool := { third.pool with workers := [sampled 0 40] } } : Scaler).tick
          5 (fun _ => 0) (fun _ => 0)).toOption.map
        (fun r => (r.1.overload, r.1.pool.workers, r.2))))
      = some (false, [sampled 0 40], []) := by
  refine ⟨rfl, by decide, by decide, by decide⟩

/-- C11 (amended).  After any history of fewer than `2^63 - 16` ticks from `NewScaler`,
four consecutive classified ticks each with a mean above the statistic left by the tick
before it leave the overload flag set after the fourth, and the action of that tick is
`Shrink`. -/
theorem Scaler_overload_after_rises (pool : Pool) (history : List (List Worker))
    (w1 w2 w3 w4 : List Worker) (before : Scaler) (sent : Nat) (born clock : Nat → Int)
    (hlen : history.length < 9223372036854775792)
    (hbefore : (NewScaler pool).loads history = Except.ok before)
    (hrise : before.risingRun [w1, w2, w3, w4] = true) :
    ∃ third last : Scaler,
      before.loads [w1, w2, w3] = Except.ok third ∧
      ({ third with pool := { third.pool with workers := w4 } } : Scaler).load
        = Except.ok last ∧
      last.overload = true ∧
      ({ third with pool := { third.pool with workers := w4 } } : Scaler).tick sent born clock
        = last.Shrink clock := by
  obtain ⟨last0, hlast0, -, -, hs0⟩ :=
    Scaler.loads_level history (NewScaler pool) (by simp [NewScaler]) (by simp [NewScaler])
  rw [hbefore] at hlast0
  injection hlast0 with hlast0
  subst hlast0
  have hs : before.samples = 3 := hs0
  obtain ⟨p0, p1⟩ := Scaler.loads_period history (NewScaler pool) before hbefore
    (by simp [NewScaler]) (by simp only [NewScaler]; omega)
  simp only [NewScaler] at p1
  -- first tick
  obtain ⟨a1, b1, c1, s1, hl1, hr1⟩ := Scaler.risingRun_cons before w1 _ hrise
  obtain ⟨n1, hn1, low1, sam1, q0, q3, -⟩ :=
    Scaler.rise_step { before with pool := { before.pool with workers := w1 } } hs p0
      (by simp only []; omega) a1 b1 c1
  rw [hl1] at hn1
  injection hn1 with hn1
  subst hn1
  -- second tick
  obtain ⟨a2, b2, c2, s2, hl2, hr2⟩ := Scaler.risingRun_cons s1 w2 _ hr1
  obtain ⟨n2, hn2, low2, sam2, r0, r3, rr⟩ :=
    Scaler.rise_step { s1 with pool := { s1.pool with workers := w2 } } sam1 q0
      (by simp only []; omega) a2 b2 c2
  rw [hl2] at hn2
  injection hn2 with hn2
  subst hn2
  obtain ⟨-, rb⟩ := rr low1
  simp only [] at rb
  -- third tick
  obtain ⟨a3, b3, c3, s3, hl3, hr3⟩ := Scaler.risingRun_cons s2 w3 _ hr2
  obtain ⟨n3, hn3, low3, sam3, t0, t3, tt⟩ :=
    Scaler.rise_step { s2 with pool := { s2.pool with workers := w3 } } sam2 r0
      (by simp only []; omega) a3 b3 c3
  rw [hl3] at hn3
  injection hn3 with hn3
  subst hn3
  obtain ⟨ta, tb⟩ := tt low2
  simp only [] at ta tb
  -- fourth tick
  obtain ⟨a4, b4, c4, s4, hl4, -⟩ := Scaler.risingRun_cons s3 w4 _ hr3
  obtain ⟨n4, hn4, -, -, u0, u3, uu⟩ :=
    Scaler.rise_step { s3 with pool := { s3.pool with workers := w4 } } sam3 t0
      (by simp only []; omega) a4 b4 c4
  rw [hl4] at hn4
  injection hn4 with hn4
  subst hn4
  obtain ⟨ua, ub⟩ := uu low3
  simp only [] at ua ub
  have hover : s4.overload = true := by
    rcases ub with h | h
    · exact h
    · rcases tb with h3 | h3
      · exact ua h3
      · rcases rb with h2 | h2
        · exact ua (ta h2)
        · omega
  refine ⟨s3, s4, ?_, hl4, hover, Scaler.tick_overload _ s4 sent born clock hl4 hover⟩
  simp only [Scaler.loads, hl1, hl2, hl3]

theorem Scaler_overload_after_rises_witness :
    ([[sampled 0 10]] : List (List Worker)).length < 9223372036854775792 ∧
    (NewScaler (idlePool 1)).loads [[sampled 0 10]] = Except.ok firstSample ∧
    firstSample.risingRun [[sampled 0 20], [sampled 0 30], [sampled 0 40], [sampled 0 50]]
      = true ∧
    ∃ third last : Scaler,
      firstSample.loads [[sampled 0 20], [sampled 0 30], [sampled 0 40]] = Except.ok third ∧
      ({ third with pool := { third.pool with workers := [sampled 0 50] } } : Scaler).load
        = Except.ok last ∧
      last.overload = true ∧
      ({ third with pool := { third.pool with workers := [sampled 0 50] } } : Scaler).tick 5
          (fun _ => 0) (fun _ => 0)
        = last.Shrink (fun _ => 0) :=
  ⟨by decide, rfl, by decide,
    Scaler_overload_after_rises (idlePool 1) [[sampled 0 10]] [sampled 0 20] [sampled 0 30]
      [sampled 0 40] [sampled 0 50] firstSample 5 (fun _ => 0) (fun _ => 0) (by decide) rfl
      (by decide)⟩


/-- The loop of `Grow` appends one worker per iteration, each with the length of the
collection at that moment as its id. -/
theorem Scaler.Grow_loop (clock : Nat → Int) (n : Nat) (acc : List Worker) :
    (List.range n).foldl
        (fun (workers : List Worker) (i : Nat) =>
          workers ++ [NewWorker (Int.ofNat workers.length) (clock i)]) acc
      = acc ++ (List.range n).map
          (fun i => NewWorker (Int.ofNat (acc.length + i)) (clock i)) := by
  induction n with
  | zero => simp
  | succ k ih =>
    rw [List.range_succ, List.foldl_append, ih, List.map_append, List.foldl_cons,
      List.foldl_nil, List.map_cons, List.map_nil, List.append_assoc, List.length_append,
      List.length_map, List.length_range]

/-- `Grow` itself: with the overload flag unset and a product `rate × level` in
`0 .. 2^63-1` it appends `rate × level` workers after the existing ones, which it leaves
as they are; with the flag set it changes nothing. -/
theorem Scaler.Grow_spec (scaler : Scaler) (clock : Nat → Int)
    (h0 : 0 ≤ scaler.rate * scaler.level)
    (h1 : scaler.rate * scaler.level < 9223372036854775808) :
    (scaler.overload = false →
      (scaler.Grow clock).pool.workers
        = scaler.pool.workers ++
            (List.range (scaler.rate * scaler.level).toNat).map
              (fun i => NewWorker (Int.ofNat (scaler.pool.workers.length + i)) (clock i)) ∧
      (scaler.Grow clock).pool.Size = scaler.pool.Size + scaler.rate * scaler.level) ∧
    (scaler.overload = true → scaler.Grow clock = scaler) := by
  have hw : wrap64 (scaler.rate * scaler.level) = scaler.rate * scaler.level :=
    wrap64_of_range _ (by omega) h1
  constructor
  · intro ho
    have hg : (scaler.Grow clock).pool.workers
        = scaler.pool.workers ++
            (List.range (scaler.rate * scaler.level).toNat).map
              (fun i => NewWorker (Int.ofNat (scaler.pool.workers.length + i)) (clock i)) := by
      simp only [Scaler.Grow, ho, hw, Bool.not_false, if_true]
      exact Scaler.Grow_loop clock _ _
    refine ⟨hg, ?_⟩
    simp only [Pool.Size, hg, List.length_append, List.length_map, List.length_range]
    push_cast
    rw [Int.toNat_of_nonneg h0]
  · intro ho
    simp [Scaler.Grow, ho]

/-- C12 (code departs from the claim).  `len(pool.jobQueue)` is 0 whatever the number of
jobs waiting to be received, so a tick never calls `Grow`: it is `load()` followed by
`Shrink` when the overload flag is set and by nothing otherwise.  On a new scaler over a
pool of one worker, with five jobs waiting and the overload flag false, the tick leaves
the pool at size 1 instead of growing it by `rate × level = 10`. -/
theorem Scaler_tick_never_grows :
    (∀ (scaler : Scaler) (sent : Nat) (born clock : Nat → Int),
      scaler.tick sent born clock
        = match scaler.load with
          | Except.error e => Except.error e
          | Except.ok loaded =>
            if loaded.overload then loaded.Shrink clock else Except.ok (loaded, [])) ∧
    (∀ born clock : Nat → Int,
      ((NewScaler (idlePool 1)).tick 5 born clock).toOption.map
          (fun r => (r.1.overload, r.1.rate * r.1.level, r.1.pool.Size))
        = some (false, 10, 1)) := by
  have hlen : ∀ sent : Nat, decide (chanLen Pool.jobQueueCap sent > 0) = false := by
    intro sent
    simp [chanLen, Pool.jobQueueCap]
  constructor
  · intro scaler sent born clock
    simp only [Scaler.tick, hlen, Bool.and_false]
    rfl
  · intro born clock
    simp only [Scaler.tick, hlen, Bool.and_false]
    rfl

/-- C13 (code departs from the claim).  With the overload flag set and `rate = 10`,
`Shrink` on the pool of `NewPool(ctx, 10)` panics (the index expression
`scaler.pool.workers[5]` finds a slice of length 5), and so it does on a pool of 18
workers; it completes on a pool of 19, removing the workers at the even positions.  In a
run: a pool of 10 workers of which worker 0 reports 10, 20, 30, 40, 50 on five ticks; the
fifth tick sets the overload flag, calls `Shrink` and panics. -/
theorem Scaler_Shrink_overload_panics :
    ((NewPool (fun _ => 0) 10).bind fun pool =>
        ({ NewScaler pool with overload := true } : Scaler).Shrink (fun _ => 0))
      = Except.error "runtime error: index out of range" ∧
    ({ NewScaler (idlePool 18) with overload := true } : Scaler).Shrink (fun _ => 0)
      = Except.error "runtime error: index out of range" ∧
    (({ NewScaler (idlePool 19) with overload := true } : Scaler).Shrink
        (fun _ => 0)).toOption.map
      (fun r => (r.1.pool.workers.map Worker.ID, r.2.map Worker.ID))
      = some ([1, 3, 5, 7, 9, 11, 13, 15, 17], [0, 2, 4, 6, 8, 10, 12, 14, 16, 18]) ∧
    (((NewScaler (idlePool 10)).loads
        [busyWorkers 9 10 100, busyWorkers 9 20 200, busyWorkers 9 30 300,
          busyWorkers 9 40 400]).bind fun fourth =>
        ({ fourth with pool := { fourth.pool with workers := busyWorkers 9 50 500 } } :
            Scaler).tick 0 (fun _ => 600) (fun _ => 600))
      = Except.error "runtime error: index out of range" := by
  refine ⟨by rfl, by rfl, by rfl, by rfl⟩

/-- C14 (code departs from the claim).  A tick of a new scaler (overload flag false) at
time 2 s over a worker unused since time 0, twice `maxIdle`: the worker is still in the
collection with its drain flag unset, and nothing was drained.  And a pool of 19 workers
of which worker 0 reports 10, 20, 30, 40, 50 on five ticks, the others unused since time
0: the fifth tick, at 2.1 s, sets the overload flag and shrinks, which drains the workers
at the even positions and leaves the other nine, idle for more than `maxIdle`, in the
collection with their drain flag unset. -/
theorem Scaler_tick_idle_not_drained :
    ((NewScaler (idlePool 1)).tick 0 (fun _ => 2000000000) (fun _ => 2000000000)).toOption.map
        (fun r => (r.1.overload, r.1.pool.workers, r.2))
      = some (false, [{ ID := 0, lastUse := 0, lastDuration := 0, drain := false }], []) ∧
    (((NewScaler (idlePool 19)).loads
        [busyWorkers 18 10 1650000000, busyWorkers 18 20 1750000000,
          busyWorkers 18 30 1850000000, busyWorkers 18 40 1950000000]).bind fun fourth =>
        ({ fourth with pool := { fourth.pool with workers := busyWorkers 18 50 2050000000 } } :
            Scaler).tick 0 (fun _ => 2100000000) (fun _ => 2100000000)).toOption.map
        (fun r => (r.1.overload,
          r.1.pool.workers.map (fun w => (w.ID, decide (2100000000 - w.lastUse > r.1.maxIdle),
            w.drain))))
      = some (true, [(1, true, false), (3, true, false), (5, true, false), (7, true, false),
          (9, true, false), (11, true, false), (13, true, false), (15, true, false),
          (17, true, false)]) := by
  refine ⟨by rfl, by rfl⟩

/-- C16 (code departs from the claim).  From `NewPool(ctx, 2)`, once worker 1 has run a
job: `Shrink` at time 2 s with the overload flag unset removes the idle worker 0 and
returns; `Grow` then numbers its ten new workers from the length of the collection, 1, so
the collection holds two workers with id 1. -/
theorem Scaler_Grow_duplicate_ids :
    ((usedPool.bind fun pool =>
        ((NewScaler pool).Shrink (fun _ => 2000000000)).toOption).map
      (fun r => ((r.1.Grow (fun _ => 2000000000)).pool.workers.map Worker.ID)))
      = some [1, 1, 2, 3, 4, 5, 6, 7, 8, 9, 10] ∧
    ¬ ([1, 1, 2, 3, 4, 5, 6, 7, 8, 9, 10] : List Int).Nodup := by
  refine ⟨by rfl, by decide⟩


/-! ## Theorems: future -/

/-- Once the `sync.Once` of a promise has fired, further calls of `Set` change nothing. -/
theorem Promise.Sets_fired {T : Type} (later : List (T × Option GoError)) (p : Promise T)
    (h : p.once = true) : p.Sets later = p := by
  induction later with
  | nil => rfl
  | cons pair rest ih =>
    obtain ⟨result, err⟩ := pair
    have hset : p.Set result err = p := by simp [Promise.Set, h]
    simp only [Promise.Sets, hset]
    exact ih

/-- C21.  On the pair made by `NewPromise`, `Result()` blocks before any `Set`; after the
first `Set(v, e)` it returns `(v, e)`, and it still returns `(v, e)` after any further
calls of `Set`. -/
theorem Promise_single_assignment {T : Type} [Inhabited T] (v : T) (e : Option GoError)
    (later : List (T × Option GoError)) :
    (NewPromise : Promise T).future.Result = none ∧
    ((NewPromise : Promise T).Set v e).future.Result = some (v, e) ∧
    (((NewPromise : Promise T).Set v e).Sets later).future.Result = some (v, e) := by
  refine ⟨rfl, rfl, ?_⟩
  rw [Promise.Sets_fired later _ rfl]
  rfl

/-! ## Theorems: worker timing, idle shrink, division -/

/-- C22 (the claim as stated fails).  A worker that receives an item at time 5 and
finishes it at time 9 has `lastDuration = 4` and `lastUse = 5`, the time of receipt, not
9; so it is not true that `lastUse` is the completion time whenever `t1 ≥ t0`. -/
theorem Worker_lastUse_counterexample :
    (Worker.Start (NewWorker 0 0)).run
        [WorkerEvent.advertised, WorkerEvent.delivered 5, WorkerEvent.finished 9 false]
      = some { worker := { ID := 0, lastUse := 5, lastDuration := 4, drain := false },
               phase := Phase.advertising, executed := 1, printed := 0 } ∧
    (Worker.Start (NewWorker 0 0)).run
        [WorkerEvent.advertised, WorkerEvent.delivered 5, WorkerEvent.finished 9 true]
      = some { worker := { ID := 0, lastUse := 5, lastDuration := 4, drain := false },
               phase := Phase.advertising, executed := 1, printed := 1 } ∧
    ¬ (∀ (p q : WorkerProc) (t0 t1 : Int) (isErr : Bool), t0 ≤ t1 →
        p.run [WorkerEvent.delivered t0, WorkerEvent.finished t1 isErr] = some q →
        q.worker.lastDuration = t1 - t0 ∧ q.worker.lastUse = t1) := by
  refine ⟨by decide, by decide, ?_⟩
  intro h
  have h1 := h { worker := NewWorker 0 0, phase := Phase.waiting, executed := 0, printed := 0 }
    { worker := { ID := 0, lastUse := 5, lastDuration := 4, drain := false },
      phase := Phase.advertising, executed := 1, printed := 0 }
    5 9 false (by decide) (by decide)
  exact absurd h1.2 (by decide)

/-- C22 (amended).  A waiting worker that receives an item at `t0` and finishes it at `t1`
has afterwards `lastDuration = t1 - t0` and `lastUse = t0`, the time of receipt, whether
the item failed or not; its id and drain flag are unchanged and the item is counted. -/
theorem Worker_timing (w : Worker) (k m : Nat) (t0 t1 : Int) (isErr : Bool) :
    ({ worker := w, phase := Phase.waiting, executed := k, printed := m } : WorkerProc).run
        [WorkerEvent.delivered t0, WorkerEvent.finished t1 isErr]
      = some { worker := { ID := w.ID, lastUse := t0, lastDuration := t1 - t0,
                           drain := w.drain },
               phase := if w.drain then Phase.stopped else Phase.advertising,
               executed := k + 1,
               printed := if isErr then m + 1 else m } := by
  simp [WorkerProc.run, WorkerProc.step]

/-- C23 (code departs from the claim).  `Shrink` with the overload flag unset, at time
2 s, `maxIdle` 1 s.  On two workers both unused since time 0 it panics (`workers[2:]` on a
slice of length 1).  On three workers of which the first two are unused since 0 and the
third was used at 1.5 s it returns, having drained and removed only the first: the second,
idle just as long, is still in the collection with its drain flag unset. -/
theorem Scaler_Shrink_idle_panics :
    (NewScaler (idlePool 2)).Shrink (fun _ => 2000000000)
      = Except.error "runtime error: slice bounds out of range" ∧
    ((NewScaler
        { workerPoolCap := 3,
          workers := [NewWorker 0 0, NewWorker 1 0, NewWorker 2 1500000000],
          wg := 0, cancelled := false }).Shrink (fun _ => 2000000000)).toOption.map
        (fun r => (r.1.pool.workers, r.2))
      = some ([NewWorker 1 0, NewWorker 2 1500000000], [(NewWorker 0 0).Drain]) := by
  refine ⟨by rfl, by rfl⟩

/-- C24.  `load()` never divides by zero: for every scaler state and worker collection,
either the call returns before the division (previous statistic zero or sample sum zero)
or the count is at least 1; and the call returns a state, never the division panic. -/
theorem Scaler_load_no_division_by_zero (scaler : Scaler) :
    (scaler.stats = 0 ∨ (Scaler.sample scaler.pool.workers).1 = 0 ∨
      1 ≤ (Scaler.sample scaler.pool.workers).2) ∧
    (∃ next, scaler.load = Except.ok next) ∧
    (Scaler.sample []).2 = 0 ∧
    (∃ next, ({ scaler with pool := { scaler.pool with workers := [] } } : Scaler).load
      = Except.ok next) := by
  refine ⟨?_, Scaler.load_total scaler, rfl, Scaler.load_total _⟩
  by_cases hsum : (Scaler.sample scaler.pool.workers).1 = 0
  · exact Or.inr (Or.inl hsum)
  · exact Or.inr (Or.inr (Scaler.sample_count_pos _ hsum))

end twoface
